import Mathlib

/-!
# PEGTL `buffer_input`: a shallow embedding

Source: `include/tao/pegtl/buffer_input.hpp`.

Conventions of the embedding.

* A `char*` is a natural-number address.  `m_buffer.get()` is the field
  `m_buffer`; the arena is the address range
  `[m_buffer, m_buffer + m_maximum)`.  Pointer arithmetic is addition of
  naturals (C++ leaves pointer overflow undefined, so no wrap is modelled).
* The bytes behind the pointers are the field `memory : Nat → Nat`
  (address ↦ byte).
* `std::size_t` arithmetic that the source performs on counts wraps modulo
  `SIZE_MAX + 1`.
* The `Reader` functor is a state type `ρ` together with a transition
  function; one invocation `m_reader( dst, len )` yields the bytes it wrote
  at `dst` (its return value is their number) and the reader's next state.
* `assert` is modelled as a fault: an operation whose assertion fails
  returns `Fault.assertion_failed`; `throw std::overflow_error` is
  `Fault.overflow_error`.  A member function that may throw returns an
  `outcome`: the fault (if any), the object state afterwards, and the list
  of reader invocations made during the call.
* `m_source` (an immutable label) and `private_depth` take no part in any
  member function modelled here and are left out of the state.
-/

namespace PEGTL

/-! ## Machine integers -/

/-- Largest value of `std::size_t` (64-bit). -/
def SIZE_MAX : Nat := 18446744073709551615

/-- Addition of two `std::size_t` values. -/
def size_t_add (a b : Nat) : Nat := (a + b) % (SIZE_MAX + 1)

/-- Subtraction of two `std::size_t` values (both at most `SIZE_MAX`). -/
def size_t_sub (a b : Nat) : Nat := (a + (SIZE_MAX + 1) - b) % (SIZE_MAX + 1)

/-! ## Memory -/

/-- Memory after `bytes` have been written starting at address `dst`. -/
def store (mem : Nat → Nat) (dst : Nat) (bytes : List Nat) : Nat → Nat :=
  fun a => if dst ≤ a ∧ a < dst + bytes.length then bytes.getD (a - dst) 0 else mem a

/-- Memory after `std::memmove( dst, src, n )`: the `n` bytes at `src` are
copied to `dst` as if through a temporary buffer, so overlap is harmless. -/
def memmove (mem : Nat → Nat) (dst src n : Nat) : Nat → Nat :=
  fun a => if dst ≤ a ∧ a < dst + n then mem (src + (a - dst)) else mem a

/-! ## Position marker -/

/-- Modelled from the spec: the Position Marker `internal::frobnicator`
(`internal/frobnicator.hpp` is not among the sources).  The spec gives it as
`{ offset_in_buffer, global_byte_count, line (1-based), column (1-based) }`;
the field names are the ones `buffer_input.hpp` uses (`m_current.data`,
`m_current.byte`, `m_current.line`, `m_current.column`). -/
structure frobnicator where
  data : Nat
  byte : Nat
  line : Nat
  column : Nat
deriving DecidableEq

/-- Modelled from the spec: a marker freshly made from a pointer, as in the
member initialiser `m_current( m_buffer.get() )`: no byte consumed yet,
line and column 1-based. -/
def frobnicator.at_start (data : Nat) : frobnicator :=
  { data := data, byte := 0, line := 1, column := 1 }

/-- Modelled from the spec: the line/column scan of `internal::bump`
(`internal/bump.hpp` is not among the sources) over the first `count` bytes
at `it.data`: the column resets to 1 and the line advances right after a
byte equal to the terminator `ch`, otherwise the column advances by one. -/
def internal.bump_scan (mem : Nat → Nat) (ch : Nat) (it : frobnicator) : Nat → frobnicator
  | 0 => it
  | i + 1 =>
    let it1 := internal.bump_scan mem ch it i
    if mem (it.data + i) = ch then
      { it1 with line := it1.line + 1, column := 1 }
    else
      { it1 with column := it1.column + 1 }

/-- Modelled from the spec: `internal::bump( iter, count, ch )`, the
"consume" operation: scans the consumed range for terminators, then advances
the byte counter and the buffer pointer by `count`. -/
def internal.bump (mem : Nat → Nat) (it : frobnicator) (count : Nat) (ch : Nat) : frobnicator :=
  let it1 := internal.bump_scan mem ch it count
  { it1 with byte := it1.byte + count, data := it1.data + count }

/-! ## The buffer -/

/-- What can stop a member function short. -/
inductive Fault where
  | overflow_error
  | assertion_failed
deriving DecidableEq

/-- One invocation `m_reader( dst, len )` together with the bytes it wrote. -/
structure reader_call where
  dst : Nat
  len : Nat
  written : List Nat
deriving DecidableEq

/-- The `Reader` functor: from its state, the destination address and the
requested length to the bytes written and its next state. -/
abbrev Reader (ρ : Type) := ρ → Nat → Nat → List Nat × ρ

/-- Byte Source contract: a pull never writes beyond the requested length. -/
def reader_within {ρ : Type} (R : Reader ρ) : Prop :=
  ∀ r dst len, (R r dst len).1.length ≤ len

/-- Data members of `buffer_input`. -/
structure buffer_input (ρ : Type) where
  m_reader : ρ
  m_maximum : Nat
  m_buffer : Nat
  m_current : frobnicator
  m_end : Nat
  memory : Nat → Nat

/-- Result of a member function that may throw. -/
structure outcome (ρ : Type) where
  fault : Option Fault
  input : buffer_input ρ
  pulls : List reader_call

namespace buffer_input

variable {ρ : Type}

/-- The constructor `buffer_input( in_source, maximum, as... )` for chunk
size `Chunk`; `addr` is the address `new char[ maximum + Chunk ]` returns
and `mem0` the (indeterminate) memory contents at that time. -/
def construct (Chunk : Nat) (reader : ρ) (maximum : Nat) (addr : Nat) (mem0 : Nat → Nat) :
    Except Fault (buffer_input ρ) :=
  let m_maximum := size_t_add maximum Chunk
  if m_maximum > maximum then
    .ok { m_reader := reader
          m_maximum := m_maximum
          m_buffer := addr
          m_current := frobnicator.at_start addr
          m_end := addr
          memory := mem0 }
  else
    .error Fault.assertion_failed

/-- The member `current()`. -/
def current (s : buffer_input ρ) : Nat := s.m_current.data

/-- The member `byte()`. -/
def byte (s : buffer_input ρ) : Nat := s.m_current.byte

/-- The member `line()`. -/
def line (s : buffer_input ρ) : Nat := s.m_current.line

/-- The member `column()`. -/
def column (s : buffer_input ρ) : Nat := s.m_current.column

/-- The member `peek_char( offset )`: `m_current.data[ offset ]`. -/
def peek_char (s : buffer_input ρ) (offset : Nat) : Nat :=
  s.memory (s.m_current.data + offset)

/-- The member `buffer_capacity()`. -/
def buffer_capacity (s : buffer_input ρ) : Nat := s.m_maximum

/-- The member `buffer_occupied()`. -/
def buffer_occupied (s : buffer_input ρ) : Except Fault Nat :=
  if s.m_end ≥ s.m_current.data then .ok (s.m_end - s.m_current.data)
  else .error Fault.assertion_failed

/-- The member `buffer_free_before_current()`. -/
def buffer_free_before_current (s : buffer_input ρ) : Except Fault Nat :=
  if s.m_current.data ≥ s.m_buffer then .ok (s.m_current.data - s.m_buffer)
  else .error Fault.assertion_failed

/-- The member `buffer_free_after_end()`. -/
def buffer_free_after_end (s : buffer_input ρ) : Except Fault Nat :=
  if s.m_buffer + s.m_maximum ≥ s.m_end then .ok (s.m_buffer + s.m_maximum - s.m_end)
  else .error Fault.assertion_failed

/-- The member `bump( in_count )` with `Eol::ch = Eol_ch`. -/
def bump (Eol_ch : Nat) (s : buffer_input ρ) (in_count : Nat) : buffer_input ρ :=
  { s with m_current := internal.bump s.memory s.m_current in_count Eol_ch }

/-- The member `discard()`.  The source computes `s = m_end - m_current.data`
as a pointer difference and hands it to `memmove`; the model uses the
natural-number difference, which agrees with it whenever
`m_current.data <= m_end` (otherwise the C++ call is undefined). -/
def discard (Chunk : Nat) (s : buffer_input ρ) : buffer_input ρ :=
  if s.m_current.data > s.m_buffer + Chunk then
    let n := s.m_end - s.m_current.data
    { s with memory := memmove s.memory s.m_buffer s.m_current.data n
             m_current := { s.m_current with data := s.m_buffer }
             m_end := s.m_buffer + n }
  else
    s

/-- The member `require( amount )`.  The two capacity queries in the argument
of the reader call carry assertions; whichever fails first, the call ends in
`Fault.assertion_failed` before the reader is invoked. -/
def require (R : Reader ρ) (Chunk : Nat) (s : buffer_input ρ) (amount : Nat) : outcome ρ :=
  if s.m_current.data + amount ≤ s.m_end then
    { fault := none, input := s, pulls := [] }
  else if s.m_current.data + amount > s.m_buffer + s.m_maximum then
    { fault := some Fault.overflow_error, input := s, pulls := [] }
  else
    match s.buffer_free_after_end, s.buffer_occupied with
    | .ok free, .ok occ =>
      let len := min free (max (size_t_sub amount occ) Chunk)
      let got := R s.m_reader s.m_end len
      { fault := none
        input := { s with m_reader := got.2
                          memory := store s.memory s.m_end got.1
                          m_end := s.m_end + got.1.length }
        pulls := [{ dst := s.m_end, len := len, written := got.1 }] }
    | _, _ => { fault := some Fault.assertion_failed, input := s, pulls := [] }

/-- The member `rewind_save()`; the caller keeps a copy of the marker. -/
def rewind_save (s : buffer_input ρ) : frobnicator := s.m_current

/-- The member `rewind_restore( data )`. -/
def rewind_restore (s : buffer_input ρ) (data : frobnicator) : buffer_input ρ :=
  { s with m_current := data }

/-- The cursor invariant of the spec:
`arena_start <= current <= window_end <= arena_start + capacity`. -/
def cursor_invariant (s : buffer_input ρ) : Prop :=
  s.m_buffer ≤ s.m_current.data ∧ s.m_current.data ≤ s.m_end ∧
    s.m_end ≤ s.m_buffer + s.m_maximum

end buffer_input

/-! ## Call sequences -/

/-- A call on the buffer made by the matching engine. -/
inductive Call where
  | require (amount : Nat)
  | bump (in_count : Nat)
  | discard
deriving DecidableEq

/-- A parse session seen from outside: the buffer, every byte the reader
has written into it so far (in order), the number of bytes consumed so far,
and the faults raised so far (a raised fault leaves the buffer as it was). -/
structure Session (ρ : Type) where
  input : buffer_input ρ
  stream : List Nat
  consumed : Nat
  raised : List Fault

namespace Session

variable {ρ : Type}

/-- A session around a buffer on which nothing has been called yet. -/
def start (s : buffer_input ρ) : Session ρ :=
  { input := s, stream := [], consumed := 0, raised := [] }

/-- One call. -/
def call (R : Reader ρ) (Chunk Eol_ch : Nat) (t : Session ρ) : Call → Session ρ
  | .require amount =>
    let o := t.input.require R Chunk amount
    { t with input := o.input
             stream := t.stream ++ (o.pulls.map reader_call.written).flatten
             raised := t.raised ++ o.fault.toList }
  | .bump in_count =>
    { t with input := t.input.bump Eol_ch in_count
             consumed := t.consumed + in_count }
  | .discard =>
    { t with input := t.input.discard Chunk }

/-- A sequence of calls, first to last. -/
def run (R : Reader ρ) (Chunk Eol_ch : Nat) (t : Session ρ) : List Call → Session ρ
  | [] => t
  | c :: cs => run R Chunk Eol_ch (call R Chunk Eol_ch t c) cs

/-- The caller's side of `bump`: no more is consumed than
`buffer_occupied()` reports. -/
def call_allowed (s : buffer_input ρ) : Call → Bool
  | .bump in_count =>
    match s.buffer_occupied with
    | .ok occ => decide (in_count ≤ occ)
    | .error _ => false
  | _ => true

/-- Every call of the sequence is allowed in the state it is made in. -/
def allowed (R : Reader ρ) (Chunk Eol_ch : Nat) (t : Session ρ) : List Call → Bool
  | [] => true
  | c :: cs => call_allowed t.input c && allowed R Chunk Eol_ch (call R Chunk Eol_ch t c) cs

end Session

/-! ## Concrete readers used in the examples -/

/-- A reader over a finite text: hands out the next `len` bytes that are left. -/
def text_reader : Reader (List Nat) :=
  fun r _ len => (r.take len, r.drop len)

/-- A source that never ends: hands out `len` consecutive byte values. -/
def endless_reader : Reader Nat :=
  fun r _ len => ((List.range len).map (fun i => (r + i) % 256), r + len)

/-- What holds of every session grown from a fresh buffer by allowed calls:
the cursor invariant, the retained window is exactly the unconsumed tail of
the stream, and no assertion has failed. -/
def Session.coherent {ρ : Type} (t : Session ρ) : Prop :=
  t.input.cursor_invariant ∧
  t.stream.length = t.consumed + (t.input.m_end - t.input.m_current.data) ∧
  (∀ i, i < t.input.m_end - t.input.m_current.data →
      t.stream[t.consumed + i]? = some (t.input.memory (t.input.m_current.data + i))) ∧
  Fault.assertion_failed ∉ t.raised

/-- The call sequences claim C3 speaks of: `require` and `bump` only, each
request at most `M`. -/
def Call.request_at_most (M : Nat) : Call → Bool
  | .require amount => decide (amount ≤ M)
  | .bump _ => true
  | .discard => false

/-- A sequence of `require` and `bump` calls in which, at every
`require( amount )`, the bytes consumed so far plus `amount` stay within
`bound`. -/
def Session.requests_fit {ρ : Type} (R : Reader ρ) (Chunk Eol_ch : Nat) (bound : Nat)
    (t : Session ρ) : List Call → Bool
  | [] => true
  | .require amount :: cs =>
    decide (t.consumed + amount ≤ bound) &&
      Session.requests_fit R Chunk Eol_ch bound (t.call R Chunk Eol_ch (.require amount)) cs
  | .bump in_count :: cs =>
    Session.requests_fit R Chunk Eol_ch bound (t.call R Chunk Eol_ch (.bump in_count)) cs
  | .discard :: _ => false

/-- The member `empty()`: `require( 1 )`, then `m_current.data == m_end`.
The second component is the value returned, absent when `require` raised. -/
def buffer_input.empty {ρ : Type} (R : Reader ρ) (Chunk : Nat) (s : buffer_input ρ) :
    outcome ρ × Option Bool :=
  let o := s.require R Chunk 1
  match o.fault with
  | some _ => (o, none)
  | none => (o, some (decide (o.input.m_current.data = o.input.m_end)))

/-- Modelled from the spec: `internal::bump_in_this_line( iter, count )`
(`internal/bump.hpp` is not among the sources), the "advance within line"
variant: the caller guarantees that no terminator occurs in the range, and
only the pointer and the column and byte counters move. -/
def internal.bump_in_this_line (it : frobnicator) (count : Nat) : frobnicator :=
  { it with data := it.data + count, byte := it.byte + count, column := it.column + count }

/-- Modelled from the spec: `internal::bump_to_next_line( iter, count )`
(`internal/bump.hpp` is not among the sources), the "force one line break"
variant: unconditionally increments the line and resets the column, consuming
a terminator of `count` bytes. -/
def internal.bump_to_next_line (it : frobnicator) (count : Nat) : frobnicator :=
  { it with line := it.line + 1, byte := it.byte + count, column := 1, data := it.data + count }

/-- The member `bump_in_this_line( in_count )`. -/
def buffer_input.bump_in_this_line {ρ : Type} (s : buffer_input ρ) (in_count : Nat) :
    buffer_input ρ :=
  { s with m_current := internal.bump_in_this_line s.m_current in_count }

/-- The member `bump_to_next_line( in_count )`. -/
def buffer_input.bump_to_next_line {ρ : Type} (s : buffer_input ρ) (in_count : Nat) :
    buffer_input ρ :=
  { s with m_current := internal.bump_to_next_line s.m_current in_count }

/-! ## The unescape actions

Source: `include/tao/pegtl/contrib/unescape.hpp`.

A `std::string` is the list of its bytes, a `char` is its byte value
(0..255), and the matched input `in` of an action is the list of bytes of the
span `[in.begin(), in.end())`.  A function that takes the output string by
reference returns the string afterwards next to its result.  `unsigned` is
32 bits wide. -/

namespace unescape

/-- The conversion `static_cast< char >( x )` of an unsigned value: its low
eight bits. -/
def to_char (x : Nat) : Nat := x % 256

/-- Reduction of an `unsigned` value to 32 bits. -/
def to_unsigned (x : Nat) : Nat := x % 4294967296

/-- The function `utf8_append_utf32( string, utf32 )`: the returned flag and
the string afterwards. -/
def utf8_append_utf32 (string : List Nat) (utf32 : Nat) : Bool × List Nat :=
  if utf32 ≤ 0x7f then
    (true, string ++ [to_char (utf32 &&& 0xff)])
  else if utf32 ≤ 0x7ff then
    (true, string ++ [to_char (((utf32 &&& 0x7c0) >>> 6) ||| 0xc0),
                      to_char ((utf32 &&& 0x03f) ||| 0x80)])
  else if utf32 ≤ 0xffff then
    if utf32 ≥ 0xd800 ∧ utf32 ≤ 0xdfff then
      (false, string)
    else
      (true, string ++ [to_char (((utf32 &&& 0xf000) >>> 12) ||| 0xe0),
                        to_char (((utf32 &&& 0x0fc0) >>> 6) ||| 0x80),
                        to_char ((utf32 &&& 0x003f) ||| 0x80)])
  else if utf32 ≤ 0x10ffff then
    (true, string ++ [to_char (((utf32 &&& 0x1c0000) >>> 18) ||| 0xf0),
                      to_char (((utf32 &&& 0x03f000) >>> 12) ||| 0x80),
                      to_char (((utf32 &&& 0x000fc0) >>> 6) ||| 0x80),
                      to_char ((utf32 &&& 0x00003f) ||| 0x80)])
  else
    (false, string)

/-- The function `unhex_char< I >( c )`; `none` is the `std::terminate()` of
the default case.  The three groups of case labels are the character ranges
`'0'..'9'` (48..57), `'a'..'f'` (97..102) and `'A'..'F'` (65..70). -/
def unhex_char (c : Nat) : Option Nat :=
  if 48 ≤ c ∧ c ≤ 57 then some (c - 48)
  else if 97 ≤ c ∧ c ≤ 102 then some (c - 97 + 10)
  else if 65 ≤ c ∧ c ≤ 70 then some (c - 65 + 10)
  else none

/-- The loop of `unhex_string< I >( begin, end )` over the bytes of
`[begin, end)`, with `r` the accumulator and `I` an integer type of `bits`
bits: `r <<= 4; r += unhex_char< I >( *begin++ );`. -/
def unhex_string_loop (bits : Nat) : List Nat → Nat → Option Nat
  | [], r => some r
  | c :: rest, r =>
    match unhex_char c with
    | none => none
    | some d => unhex_string_loop bits rest (((r <<< 4) % 2 ^ bits + d) % 2 ^ bits)

/-- The function `unhex_string< I >( begin, end )`. -/
def unhex_string (bits : Nat) (range : List Nat) : Option Nat :=
  unhex_string_loop bits range 0

/-- How an action ends: a `void` action returns (`done`), a `bool` action
returns a value, `parse_error` is thrown, `std::terminate()` is called, or an
`assert` fails.  `out_of_fuel` is not an outcome of the program: it marks a
loop of the model cut short, and no action below ever ends in it. -/
inductive status where
  | done
  | returned (value : Bool)
  | parse_error
  | terminate
  | assertion_failed
  | out_of_fuel
deriving DecidableEq

/-- An action applied: how it ended and the output string afterwards. -/
structure applied where
  status : status
  s : List Nat
deriving DecidableEq

/-- The action succeeded: it returned, and not `false`. -/
def status.succeeded : status → Bool
  | .done => true
  | .returned value => value
  | _ => false

/-- The action failed with "invalid escaped unicode code point": the
`parse_error` of the build with exceptions, the `false` of the build
without. -/
def status.invalid_code_point (cpp_exceptions : Bool) (st : status) : Bool :=
  if cpp_exceptions then decide (st = .parse_error) else decide (st = .returned false)

/-- The action `append_all::apply( in, s )`. -/
def append_all.apply (inp s : List Nat) : applied :=
  { status := .done, s := s ++ inp }

/-- The loop of `unescape_c::apply_two( in, q, r )` from index `i` on, with
`n` iterations left (`n = q.size() - i`); `none` is the `std::terminate()`
after the loop. -/
def unescape_c.apply_two_loop (c : Nat) (q r : List Nat) : Nat → Nat → Option Nat
  | 0, _ => none
  | n + 1, i =>
    if q.getD i 0 = c then some (r.getD i 0)
    else unescape_c.apply_two_loop c q r n (i + 1)

/-- The function `unescape_c::apply_two( in, q, r )`. -/
def unescape_c.apply_two (inp q r : List Nat) : Option Nat :=
  unescape_c.apply_two_loop (inp.headD 0) q r q.length 0

/-- The function `unescape_c::apply_one( in, (one< Qs... >*) nullptr )` for
`Qs = q` and `Rs = r`; the `static_assert` requires `q` and `r` to have the
same length. -/
def unescape_c.apply_one (inp q r : List Nat) : Option Nat :=
  unescape_c.apply_two inp q r

/-- The action `unescape_c< one< Qs... >, Rs... >::apply( in, s )`. -/
def unescape_c.apply (q r : List Nat) (inp s : List Nat) : applied :=
  if inp.length = 1 then
    match unescape_c.apply_one inp q r with
    | some ch => { status := .done, s := s ++ [ch] }
    | none => { status := .terminate, s := s }
  else
    { status := .assertion_failed, s := s }

/-- The action `unescape_u::apply( in, s )`, in the build with exceptions
(`void`, throws) and in the build without (`bool`). -/
def unescape_u.apply (cpp_exceptions : Bool) (inp s : List Nat) : applied :=
  if inp.length = 0 then
    { status := .assertion_failed, s := s }
  else
    match unhex_string 32 (inp.drop 1) with
    | none => { status := .terminate, s := s }
    | some v =>
      let got := utf8_append_utf32 s v
      if cpp_exceptions then
        if !got.1 then { status := .parse_error, s := got.2 }
        else { status := .done, s := got.2 }
      else
        { status := .returned got.1, s := got.2 }

/-- The action `unescape_x::apply( in, s )`. -/
def unescape_x.apply (inp s : List Nat) : applied :=
  if inp.length = 0 then
    { status := .assertion_failed, s := s }
  else
    match unhex_string 8 (inp.drop 1) with
    | none => { status := .terminate, s := s }
    | some v => { status := .done, s := s ++ [v] }

/-- The `for` loop of `unescape_j::apply( in, s )`.  The pointer `b` is
represented by `rest`, the bytes of `[b, in.end())`: `b < in.end()` is
`rest` being non-empty, `b + 6 < in.end()` is `6 < rest.length`,
`unhex_string( b, b + 4 )` reads the first four bytes of `rest`, and
`b += 6` drops six bytes.  Under the assertion of `apply` the span has
`6k - 1` bytes and `b` stays at offsets `6j + 1`, so the four (or ten) bytes
read are always there.  The first argument bounds the number of iterations;
`apply` passes `in.size()`, which is more than the loop can use. -/
def unescape_j.loop (cpp_exceptions : Bool) : Nat → List Nat → List Nat → applied
  | 0, _, s => { status := .out_of_fuel, s := s }
  | fuel + 1, rest, s =>
    if rest.length = 0 then
      { status := .returned true, s := s }
    else
      match unhex_string 32 (rest.take 4) with
      | none => { status := .terminate, s := s }
      | some c =>
        let plain : applied :=
          let got := utf8_append_utf32 s c
          if !got.1 then
            { status := if cpp_exceptions then .parse_error else .returned false, s := got.2 }
          else
            unescape_j.loop cpp_exceptions fuel (rest.drop 6) got.2
        if 0xd800 ≤ c ∧ c ≤ 0xdbff ∧ 6 < rest.length then
          match unhex_string 32 ((rest.drop 6).take 4) with
          | none => { status := .terminate, s := s }
          | some d =>
            if 0xdc00 ≤ d ∧ d ≤ 0xdfff then
              unescape_j.loop cpp_exceptions fuel ((rest.drop 6).drop 6)
                (utf8_append_utf32 s
                  (to_unsigned ((to_unsigned ((c &&& 0x03ff) <<< 10) ||| (d &&& 0x03ff))
                    + 0x10000))).2
            else
              plain
        else
          plain

/-- The action `unescape_j::apply( in, s )`. -/
def unescape_j.apply (cpp_exceptions : Bool) (inp s : List Nat) : applied :=
  if (inp.length + 1) % 6 = 0 then
    unescape_j.loop cpp_exceptions inp.length (inp.drop 1) s
  else
    { status := .assertion_failed, s := s }

end unescape

/-! ## Reference definitions for the unescape claims

These are written from the wording of the claims (standard UTF-8, UTF-16
and positional notation), not from the source; the theorems compare the
source functions with them. -/

namespace reference

/-- A Unicode scalar value: `0..0x10FFFF` without `0xD800..0xDFFF`. -/
def is_scalar (u : Nat) : Prop := u ≤ 0x10FFFF ∧ ¬ (0xD800 ≤ u ∧ u ≤ 0xDFFF)

instance (u : Nat) : Decidable (is_scalar u) := by
  unfold is_scalar
  infer_instance

/-- The standard UTF-8 encoding of a code point `u <= 0x10FFFF`: one byte
`0xxxxxxx` up to `0x7F`, two bytes `110xxxxx 10xxxxxx` up to `0x7FF`, three
bytes `1110xxxx 10xxxxxx 10xxxxxx` up to `0xFFFF`, four bytes
`11110xxx 10xxxxxx 10xxxxxx 10xxxxxx` otherwise, the bits of `u` filled in
most significant first. -/
def utf8_encoding (u : Nat) : List Nat :=
  if u ≤ 0x7F then [u]
  else if u ≤ 0x7FF then [0xC0 + u / 64, 0x80 + u % 64]
  else if u ≤ 0xFFFF then [0xE0 + u / 4096, 0x80 + u / 64 % 64, 0x80 + u % 64]
  else [0xF0 + u / 262144, 0x80 + u / 4096 % 64, 0x80 + u / 64 % 64, 0x80 + u % 64]

/-- The standard UTF-8 decoder for one code point, the inverse of the bit
layout: check and strip the length prefix of the lead byte and the `10`
prefix of every continuation byte, and concatenate the payload bits. -/
def utf8_decode : List Nat → Option Nat
  | [b0] => if b0 / 128 = 0 then some b0 else none
  | [b0, b1] =>
    if b0 / 32 = 6 ∧ b1 / 64 = 2 then some (b0 % 32 * 64 + b1 % 64) else none
  | [b0, b1, b2] =>
    if b0 / 16 = 14 ∧ b1 / 64 = 2 ∧ b2 / 64 = 2 then
      some (b0 % 16 * 4096 + b1 % 64 * 64 + b2 % 64)
    else none
  | [b0, b1, b2, b3] =>
    if b0 / 8 = 30 ∧ b1 / 64 = 2 ∧ b2 / 64 = 2 ∧ b3 / 64 = 2 then
      some (b0 % 8 * 262144 + b1 % 64 * 4096 + b2 % 64 * 64 + b3 % 64)
    else none
  | _ => none

/-- The hexadecimal digits in value order, lower case. -/
def xdigits_lower : List Nat :=
  [48, 49, 50, 51, 52, 53, 54, 55, 56, 57, 97, 98, 99, 100, 101, 102]

/-- The hexadecimal digits in value order, upper case. -/
def xdigits_upper : List Nat :=
  [48, 49, 50, 51, 52, 53, 54, 55, 56, 57, 65, 66, 67, 68, 69, 70]

/-- The value of a hexadecimal digit (`0-9`, `a-f` or `A-F`): its position
among the sixteen digits, the same for both cases; `none` for any other
character. -/
def xdigit_value (c : Nat) : Option Nat :=
  if c ∈ xdigits_lower then some (xdigits_lower.indexOf c)
  else if c ∈ xdigits_upper then some (xdigits_upper.indexOf c)
  else none

/-- The character is a hexadecimal digit. -/
def is_xdigit (c : Nat) : Prop := (xdigit_value c).isSome = true

instance (c : Nat) : Decidable (is_xdigit c) := by
  unfold is_xdigit
  infer_instance

/-- The base-16 positional value of a digit string, most significant digit
first. -/
def hex_value (digits : List Nat) : Nat :=
  digits.foldl (fun r c => 16 * r + (xdigit_value c).getD 0) 0

/-- A UTF-16 high (leading) surrogate. -/
def is_high_surrogate (u : Nat) : Prop := 0xD800 ≤ u ∧ u ≤ 0xDBFF

instance (u : Nat) : Decidable (is_high_surrogate u) := by
  unfold is_high_surrogate
  infer_instance

/-- A UTF-16 low (trailing) surrogate. -/
def is_low_surrogate (u : Nat) : Prop := 0xDC00 ≤ u ∧ u ≤ 0xDFFF

instance (u : Nat) : Decidable (is_low_surrogate u) := by
  unfold is_low_surrogate
  infer_instance

/-- The code point of a surrogate pair, by the formula of the spec:
`((high & 0x3FF) << 10 | (low & 0x3FF)) + 0x10000`. -/
def surrogate_pair_value (high low : Nat) : Nat :=
  (((high &&& 0x3FF) <<< 10) ||| (low &&& 0x3FF)) + 0x10000

/-- Well-formed UTF-16: every unit in `0xD800..0xDBFF` is immediately
followed by a unit in `0xDC00..0xDFFF`, and no unit in `0xDC00..0xDFFF`
occurs without such a predecessor.  (The default 0 of `getD` is no
surrogate, so a missing neighbour fails the condition.) -/
def utf16_well_formed (units : List Nat) : Prop :=
  ∀ i, i < units.length →
    (is_high_surrogate (units.getD i 0) → is_low_surrogate (units.getD (i + 1) 0)) ∧
    (is_low_surrogate (units.getD i 0) → 1 ≤ i ∧ is_high_surrogate (units.getD (i - 1) 0))

instance (units : List Nat) : Decidable (utf16_well_formed units) := by
  unfold utf16_well_formed
  infer_instance

/-- The code points of a UTF-16 sequence; `none` if it is not well-formed. -/
def utf16_decode : List Nat → Option (List Nat)
  | [] => some []
  | [u] => if is_high_surrogate u ∨ is_low_surrogate u then none else some [u]
  | u :: l :: rest =>
    if is_high_surrogate u then
      if is_low_surrogate l then (utf16_decode rest).map (surrogate_pair_value u l :: ·)
      else none
    else if is_low_surrogate u then none
    else (utf16_decode (l :: rest)).map (u :: ·)

/-- The UTF-8 transcoding of a UTF-16 sequence. -/
def utf16_to_utf8 (units : List Nat) : Option (List Nat) :=
  (utf16_decode units).map (fun cps => (cps.map utf8_encoding).flatten)

/-- The bytes of the escapes `hhhh\uhhhh\u...hhhh` for the given groups of
four digits, without the first marker byte: the groups separated by the two
bytes `\` (92) and `u` (117). -/
def escapes_tail : List (List Nat) → List Nat
  | [] => []
  | [g] => g
  | g :: g2 :: gs => g ++ [92, 117] ++ escapes_tail (g2 :: gs)

/-- The span `uhhhh\uhhhh\u...hhhh` that `unescape_j` is applied to: the
first marker byte `u` (117), then the groups of digits. -/
def escapes_span (groups : List (List Nat)) : List Nat :=
  117 :: escapes_tail groups

end reference

/-- Groups of exactly four hexadecimal digits each. -/
def reference.four_digit_groups (groups : List (List Nat)) : Prop :=
  ∀ g ∈ groups, g.length = 4 ∧ ∀ c ∈ g, reference.is_xdigit c

instance (groups : List (List Nat)) : Decidable (reference.four_digit_groups groups) := by
  unfold reference.four_digit_groups
  infer_instance

/-- No call of the sequence is an effective `discard()`: wherever
`discard()` is called, `m_current.data` lies at most `Chunk` bytes past
`m_buffer`, so the call moves nothing. -/
def Session.no_effective_discard {ρ : Type} (R : Reader ρ) (Chunk Eol_ch : Nat)
    (t : Session ρ) : List Call → Bool
  | [] => true
  | .discard :: cs =>
    decide (t.input.m_current.data ≤ t.input.m_buffer + Chunk) &&
      Session.no_effective_discard R Chunk Eol_ch (t.call R Chunk Eol_ch .discard) cs
  | c :: cs => Session.no_effective_discard R Chunk Eol_ch (t.call R Chunk Eol_ch c) cs

/-! ## Concrete inputs used in the examples -/

/-- Memory holding zero everywhere. -/
def zero_memory : Nat → Nat := fun _ => 0

/-- The text `abc\nefghijklmnopq` as byte values. -/
def sample_text : List Nat :=
  [97, 98, 99, 10, 101, 102, 103, 104, 105, 106, 107, 108, 109, 110, 111, 112, 113]

/-- A fresh buffer with maximum 8 and chunk 4 over `sample_text`, its arena
at address 1000. -/
def sample_input : buffer_input (List Nat) :=
  { m_reader := sample_text
    m_maximum := 12
    m_buffer := 1000
    m_current := { data := 1000, byte := 0, line := 1, column := 1 }
    m_end := 1000
    memory := zero_memory }

/-- A fresh buffer with maximum 4 and chunk 4 over a source that never
ends, its arena at address 1000. -/
def small_input : buffer_input Nat :=
  { m_reader := 0
    m_maximum := 8
    m_buffer := 1000
    m_current := { data := 1000, byte := 0, line := 1, column := 1 }
    m_end := 1000
    memory := zero_memory }

/-- A fresh buffer with maximum 4 and chunk 4 over the text `abcdefgh`, its
arena at address 1000. -/
def abc_input : buffer_input (List Nat) :=
  { m_reader := [97, 98, 99, 100, 101, 102, 103, 104]
    m_maximum := 8
    m_buffer := 1000
    m_current := { data := 1000, byte := 0, line := 1, column := 1 }
    m_end := 1000
    memory := zero_memory }

/-! ## Lemmas -/

section lemmas

open buffer_input Session

open unescape reference

variable {ρ : Type}

theorem internal.bump_scan_data (mem : Nat → Nat) (ch : Nat) (it : frobnicator) (n : Nat) :
    (internal.bump_scan mem ch it n).data = it.data := by
  induction n with
  | zero => rfl
  | succ i ih =>
    simp only [internal.bump_scan]
    split <;> simpa using ih

theorem internal.bump_data (mem : Nat → Nat) (it : frobnicator) (count ch : Nat) :
    (internal.bump mem it count ch).data = it.data + count := by
  simp [internal.bump, internal.bump_scan_data]

theorem store_below (mem : Nat → Nat) (dst : Nat) (bytes : List Nat) (a : Nat) (h : a < dst) :
    store mem dst bytes a = mem a := by
  have : ¬ (dst ≤ a ∧ a < dst + bytes.length) := by omega
  simp [store, this]

theorem store_at (mem : Nat → Nat) (dst : Nat) (bytes : List Nat) (j : Nat) (h : j < bytes.length) :
    bytes[j]? = some (store mem dst bytes (dst + j)) := by
  have : dst ≤ dst + j ∧ dst + j < dst + bytes.length := by omega
  simp [store, this, List.getD_eq_getElem?_getD, List.getElem?_eq_getElem h]

theorem memmove_at (mem : Nat → Nat) (dst src n j : Nat) (h : j < n) :
    memmove mem dst src n (dst + j) = mem (src + j) := by
  have : dst ≤ dst + j ∧ dst + j < dst + n := by omega
  simp [memmove, this]

theorem buffer_input.require_pull (R : Reader ρ) (Chunk : Nat) (s : buffer_input ρ) (amount : Nat)
    (hinv : s.cursor_invariant) (h1 : ¬ s.m_current.data + amount ≤ s.m_end)
    (h2 : ¬ s.m_current.data + amount > s.m_buffer + s.m_maximum) :
    s.require R Chunk amount =
      { fault := none
        input := { s with
          m_reader := (R s.m_reader s.m_end (min (s.m_buffer + s.m_maximum - s.m_end)
            (max (size_t_sub amount (s.m_end - s.m_current.data)) Chunk))).2
          memory := store s.memory s.m_end (R s.m_reader s.m_end (min (s.m_buffer + s.m_maximum - s.m_end)
            (max (size_t_sub amount (s.m_end - s.m_current.data)) Chunk))).1
          m_end := s.m_end + (R s.m_reader s.m_end (min (s.m_buffer + s.m_maximum - s.m_end)
            (max (size_t_sub amount (s.m_end - s.m_current.data)) Chunk))).1.length }
        pulls := [{ dst := s.m_end
                    len := min (s.m_buffer + s.m_maximum - s.m_end)
                      (max (size_t_sub amount (s.m_end - s.m_current.data)) Chunk)
                    written := (R s.m_reader s.m_end (min (s.m_buffer + s.m_maximum - s.m_end)
                      (max (size_t_sub amount (s.m_end - s.m_current.data)) Chunk))).1 }] } := by
  obtain ⟨_, hb, hc⟩ := hinv
  have e1 : s.buffer_free_after_end = .ok (s.m_buffer + s.m_maximum - s.m_end) := by
    simp [buffer_free_after_end, hc]
  have e2 : s.buffer_occupied = .ok (s.m_end - s.m_current.data) := by
    simp [buffer_occupied, hb]
  simp only [require, if_neg h1, if_neg h2, e1, e2]

theorem Session.coherent_require (R : Reader ρ) (Chunk Eol_ch : Nat) (t : Session ρ) (amount : Nat)
    (hR : reader_within R) (h : t.coherent) :
    (t.call R Chunk Eol_ch (.require amount)).coherent := by
  obtain ⟨hinv, hlen, hwin, hra⟩ := h
  have hinv0 := hinv
  obtain ⟨ha, hb, hc⟩ := hinv
  by_cases h1 : t.input.m_current.data + amount ≤ t.input.m_end
  · have e : t.input.require R Chunk amount = { fault := none, input := t.input, pulls := [] } := by
      simp [require, h1]
    simp only [Session.call, e]
    exact ⟨hinv0, by simpa using hlen, by simpa using hwin, by simpa using hra⟩
  · by_cases h2 : t.input.m_current.data + amount > t.input.m_buffer + t.input.m_maximum
    · have e : t.input.require R Chunk amount =
          { fault := some Fault.overflow_error, input := t.input, pulls := [] } := by
        simp [require, h1, h2]
      simp only [Session.call, e]
      exact ⟨hinv0, by simpa using hlen, by simpa using hwin, by simpa using hra⟩
    · simp only [Session.call, require_pull R Chunk t.input amount hinv0 h1 h2]
      generalize hL : min (t.input.m_buffer + t.input.m_maximum - t.input.m_end)
        (max (size_t_sub amount (t.input.m_end - t.input.m_current.data)) Chunk) = L
      have hL1 : L ≤ t.input.m_buffer + t.input.m_maximum - t.input.m_end := by
        rw [← hL]; exact Nat.min_le_left _ _
      have hw := hR t.input.m_reader t.input.m_end L
      generalize R t.input.m_reader t.input.m_end L = got at hw
      refine ⟨⟨ha, by simp only; omega, by simp only; omega⟩, ?_, ?_, by simpa using hra⟩
      · simp only [List.map, List.flatten, List.append_nil, List.length_append]
        omega
      · intro i hi
        simp only [List.map, List.flatten, List.append_nil] at hi ⊢
        by_cases hlt : i < t.input.m_end - t.input.m_current.data
        · rw [List.getElem?_append_left (by omega), store_below _ _ _ _ (by omega)]
          exact hwin i hlt
        · rw [List.getElem?_append_right (by omega)]
          have e1 : t.consumed + i - t.stream.length = i - (t.input.m_end - t.input.m_current.data) := by
            omega
          have e2 : t.input.m_current.data + i =
              t.input.m_end + (i - (t.input.m_end - t.input.m_current.data)) := by omega
          rw [e1, e2]
          exact store_at _ _ _ _ (by omega)

theorem Session.coherent_bump (R : Reader ρ) (Chunk Eol_ch : Nat) (t : Session ρ) (k : Nat)
    (hk : call_allowed t.input (.bump k) = true) (h : t.coherent) :
    (t.call R Chunk Eol_ch (.bump k)).coherent := by
  obtain ⟨⟨ha, hb, hc⟩, hlen, hwin, hra⟩ := h
  have hk1 : k ≤ t.input.m_end - t.input.m_current.data := by
    simpa [call_allowed, buffer_occupied, hb] using hk
  simp only [Session.call, buffer_input.bump]
  refine ⟨⟨?_, ?_, hc⟩, ?_, ?_, hra⟩
  · simp only [internal.bump_data]; omega
  · simp only [internal.bump_data]; omega
  · simp only [internal.bump_data]; omega
  · intro i hi
    simp only [internal.bump_data] at hi ⊢
    have := hwin (k + i) (by omega)
    rw [show t.consumed + k + i = t.consumed + (k + i) by omega,
      show t.input.m_current.data + k + i = t.input.m_current.data + (k + i) by omega]
    exact this

theorem Session.coherent_discard (R : Reader ρ) (Chunk Eol_ch : Nat) (t : Session ρ)
    (h : t.coherent) : (t.call R Chunk Eol_ch .discard).coherent := by
  obtain ⟨⟨ha, hb, hc⟩, hlen, hwin, hra⟩ := h
  simp only [Session.call, buffer_input.discard]
  split
  · refine ⟨⟨le_refl _, by simp only; omega, by simp only; omega⟩, ?_, ?_, hra⟩
    · simp only; omega
    · intro i hi
      simp only at hi ⊢
      rw [memmove_at _ _ _ _ _ (by omega)]
      exact hwin i (by omega)
  · exact ⟨⟨ha, hb, hc⟩, hlen, hwin, hra⟩

theorem Session.coherent_call (R : Reader ρ) (Chunk Eol_ch : Nat) (t : Session ρ) (c : Call)
    (hR : reader_within R) (hc : call_allowed t.input c = true) (h : t.coherent) :
    (t.call R Chunk Eol_ch c).coherent := by
  cases c with
  | require amount => exact Session.coherent_require R Chunk Eol_ch t amount hR h
  | bump k => exact Session.coherent_bump R Chunk Eol_ch t k hc h
  | discard => exact Session.coherent_discard R Chunk Eol_ch t h

theorem Session.coherent_run (R : Reader ρ) (Chunk Eol_ch : Nat) (hR : reader_within R)
    (calls : List Call) : ∀ t : Session ρ, allowed R Chunk Eol_ch t calls = true → t.coherent →
      (t.run R Chunk Eol_ch calls).coherent := by
  induction calls with
  | nil => intro t _ h; exact h
  | cons c cs ih =>
    intro t hal h
    simp only [allowed, Bool.and_eq_true] at hal
    exact ih _ hal.2 (Session.coherent_call R Chunk Eol_ch t c hR hal.1 h)

theorem Session.coherent_start (Chunk : Nat) (reader : ρ) (maximum addr : Nat) (mem0 : Nat → Nat)
    (s : buffer_input ρ) (hs : construct Chunk reader maximum addr mem0 = .ok s) :
    (start s).coherent := by
  simp only [construct] at hs
  split at hs
  · injection hs with hs
    subst hs
    simp [Session.coherent, start, cursor_invariant, frobnicator.at_start]
  · cases hs

theorem text_reader_within : reader_within text_reader := by
  intro r dst len
  simp [text_reader]

theorem endless_reader_within : reader_within endless_reader := by
  intro r dst len
  simp [endless_reader]

theorem buffer_input.construct_ok (Chunk : Nat) (reader : ρ) (maximum addr : Nat) (mem0 : Nat → Nat)
    (s : buffer_input ρ) (hC : Chunk ≤ SIZE_MAX)
    (hs : construct Chunk reader maximum addr mem0 = .ok s) :
    s = { m_reader := reader
          m_maximum := maximum + Chunk
          m_buffer := addr
          m_current := frobnicator.at_start addr
          m_end := addr
          memory := mem0 } ∧ 0 < Chunk ∧ maximum + Chunk ≤ SIZE_MAX := by
  simp only [construct] at hs
  split at hs
  · rename_i hgt
    injection hs with hs
    simp only [size_t_add, SIZE_MAX] at hgt hC ⊢
    have hno : maximum + Chunk < 18446744073709551616 := by
      by_contra hcon
      omega
    have hmod : size_t_add maximum Chunk = maximum + Chunk := by
      simp only [size_t_add, SIZE_MAX]
      exact Nat.mod_eq_of_lt hno
    rw [hmod] at hs
    exact ⟨hs.symm, by omega, by omega⟩
  · cases hs

theorem Session.call_m_maximum (R : Reader ρ) (Chunk Eol_ch : Nat) (t : Session ρ) (c : Call) :
    (t.call R Chunk Eol_ch c).input.m_maximum = t.input.m_maximum ∧
    (t.call R Chunk Eol_ch c).input.m_buffer = t.input.m_buffer := by
  cases c with
  | require amount =>
    simp only [Session.call, require]
    split
    · exact ⟨rfl, rfl⟩
    · split
      · exact ⟨rfl, rfl⟩
      · split <;> exact ⟨rfl, rfl⟩
  | bump k => exact ⟨rfl, rfl⟩
  | discard =>
    simp only [Session.call, buffer_input.discard]
    split <;> exact ⟨rfl, rfl⟩

theorem Session.run_m_maximum (R : Reader ρ) (Chunk Eol_ch : Nat) (calls : List Call) :
    ∀ t : Session ρ, (t.run R Chunk Eol_ch calls).input.m_maximum = t.input.m_maximum ∧
      (t.run R Chunk Eol_ch calls).input.m_buffer = t.input.m_buffer := by
  induction calls with
  | nil => intro t; exact ⟨rfl, rfl⟩
  | cons c cs ih =>
    intro t
    have h1 := ih (t.call R Chunk Eol_ch c)
    have h2 := Session.call_m_maximum R Chunk Eol_ch t c
    simp only [Session.run]
    exact ⟨h1.1.trans h2.1, h1.2.trans h2.2⟩

theorem Session.call_cursor_bound (R : Reader ρ) (Chunk Eol_ch : Nat) (t : Session ρ) (c : Call)
    (a b : Nat) (h : t.input.m_current.data + a ≤ t.input.m_buffer + b + t.consumed) :
    (t.call R Chunk Eol_ch c).input.m_current.data + a ≤
      (t.call R Chunk Eol_ch c).input.m_buffer + b + (t.call R Chunk Eol_ch c).consumed := by
  cases c with
  | require amount =>
    simp only [Session.call, require]
    split
    · exact h
    · split
      · exact h
      · split <;> exact h
  | bump k =>
    simp only [Session.call, buffer_input.bump, internal.bump_data]
    omega
  | discard =>
    simp only [Session.call, buffer_input.discard]
    split
    · simp only; omega
    · exact h

theorem Session.run_cursor_bound (R : Reader ρ) (Chunk Eol_ch : Nat) (calls : List Call)
    (a b : Nat) : ∀ t : Session ρ,
      t.input.m_current.data + a ≤ t.input.m_buffer + b + t.consumed →
      (t.run R Chunk Eol_ch calls).input.m_current.data + a ≤
        (t.run R Chunk Eol_ch calls).input.m_buffer + b + (t.run R Chunk Eol_ch calls).consumed := by
  induction calls with
  | nil => intro t h; exact h
  | cons c cs ih =>
    intro t h
    exact ih _ (Session.call_cursor_bound R Chunk Eol_ch t c a b h)

theorem buffer_input.require_fault_overflow (R : Reader ρ) (Chunk : Nat) (s : buffer_input ρ)
    (amount : Nat) :
    (s.require R Chunk amount).fault = some Fault.overflow_error ↔
      ¬ s.m_current.data + amount ≤ s.m_end ∧
        s.m_current.data + amount > s.m_buffer + s.m_maximum := by
  simp only [require]
  split
  · rename_i h; simp [h]
  · rename_i h
    split
    · rename_i h2; simp [h, h2]
    · rename_i h2
      split <;> simp [h2]

theorem Session.requests_fit_run (R : Reader ρ) (Chunk Eol_ch bound : Nat) (calls : List Call) :
    ∀ t : Session ρ, t.input.m_maximum = bound →
      t.input.m_current.data ≤ t.input.m_buffer + t.consumed →
      Session.requests_fit R Chunk Eol_ch bound t calls = true →
      Fault.overflow_error ∉ t.raised →
      Fault.overflow_error ∉ (t.run R Chunk Eol_ch calls).raised := by
  induction calls with
  | nil => intro t _ _ _ h; exact h
  | cons c cs ih =>
    intro t hm hcur hfit hra
    have hm1 := (Session.call_m_maximum R Chunk Eol_ch t c).1
    have hcur1 := Session.call_cursor_bound R Chunk Eol_ch t c 0 0 (by simpa using hcur)
    cases c with
    | require amount =>
      simp only [Session.requests_fit, Bool.and_eq_true, decide_eq_true_eq] at hfit
      refine ih _ (hm1.trans hm) (by simpa using hcur1) hfit.2 ?_
      have hno : (t.input.require R Chunk amount).fault ≠ some Fault.overflow_error := by
        rw [Ne, require_fault_overflow]
        omega
      simp only [Session.call, List.mem_append, not_or]
      refine ⟨hra, ?_⟩
      intro hmem
      apply hno
      cases hf : (t.input.require R Chunk amount).fault with
      | none => rw [hf] at hmem; simp at hmem
      | some f =>
        rw [hf] at hmem
        simp only [Option.toList, List.mem_singleton] at hmem
        rw [hmem]
    | bump k =>
      simp only [Session.requests_fit] at hfit
      exact ih _ (hm1.trans hm) (by simpa using hcur1) hfit hra
    | discard =>
      simp [Session.requests_fit] at hfit

theorem internal.bump_scan_byte (mem : Nat → Nat) (ch : Nat) (it : frobnicator) (n : Nat) :
    (internal.bump_scan mem ch it n).byte = it.byte := by
  induction n with
  | zero => rfl
  | succ i ih =>
    simp only [internal.bump_scan]
    split <;> simpa using ih

theorem internal.bump_byte (mem : Nat → Nat) (it : frobnicator) (count ch : Nat) :
    (internal.bump mem it count ch).byte = it.byte + count := by
  simp [internal.bump, internal.bump_scan_byte]

theorem buffer_input.require_m_current (R : Reader ρ) (Chunk : Nat) (s : buffer_input ρ)
    (amount : Nat) : (s.require R Chunk amount).input.m_current = s.m_current := by
  simp only [require]
  split
  · rfl
  · split
    · rfl
    · split <;> rfl

theorem unescape.and_shiftRight (a b k : Nat) : (a &&& b) >>> k = (a >>> k) &&& (b >>> k) := by
  apply Nat.eq_of_testBit_eq
  intro i
  simp only [Nat.testBit_shiftRight, Nat.testBit_and]

theorem unescape.mask_shift (u M k w : Nat) (hM : M >>> k = 2 ^ w - 1) :
    (u &&& M) >>> k = u / 2 ^ k % 2 ^ w := by
  rw [unescape.and_shiftRight, hM, Nat.and_pow_two_sub_one_eq_mod, Nat.shiftRight_eq_div_pow]

theorem unescape.mask_low (u M w : Nat) (hM : M = 2 ^ w - 1) : u &&& M = u % 2 ^ w := by
  rw [hM, Nat.and_pow_two_sub_one_eq_mod]

theorem unescape.or_lead (y j p : Nat) (hy : y < 2 ^ j) : y ||| 2 ^ j * p = 2 ^ j * p + y := by
  rw [Nat.or_comm, ← Nat.mul_add_lt_is_or hy]

theorem unescape.byte_low (u : Nat) : to_char ((u &&& 0x3f) ||| 0x80) = 0x80 + u % 64 := by
  have h1 : u &&& 0x3f = u % 2 ^ 6 := unescape.mask_low u 0x3f 6 (by decide)
  have h2 := unescape.or_lead (u % 2 ^ 6) 7 1 (by omega)
  simp only [to_char]
  rw [h1]
  norm_num at h2 ⊢
  rw [h2]
  omega

theorem unescape.byte_mid (u M k : Nat) (hM : M >>> k = 2 ^ 6 - 1) :
    to_char (((u &&& M) >>> k) ||| 0x80) = 0x80 + u / 2 ^ k % 64 := by
  have h1 := unescape.mask_shift u M k 6 hM
  have h2 := unescape.or_lead (u / 2 ^ k % 2 ^ 6) 7 1 (by omega)
  simp only [to_char]
  rw [h1]
  norm_num at h2 ⊢
  rw [h2]
  omega

theorem unescape.byte_lead (u M k w j p : Nat) (hM : M >>> k = 2 ^ w - 1) (hw : w ≤ j)
    (hp : 2 ^ j * p + 2 ^ w ≤ 256) (hu : u / 2 ^ k < 2 ^ w) :
    to_char (((u &&& M) >>> k) ||| 2 ^ j * p) = 2 ^ j * p + u / 2 ^ k := by
  have h1 := unescape.mask_shift u M k w hM
  have hle : 2 ^ w ≤ 2 ^ j := Nat.pow_le_pow_right (by decide) hw
  rw [Nat.mod_eq_of_lt hu] at h1
  have h2 := unescape.or_lead (u / 2 ^ k) j p (by omega)
  simp only [to_char]
  rw [h1, h2]
  omega

theorem unescape.utf8_append_utf32_scalar (s : List Nat) (u : Nat) (hu : is_scalar u) :
    utf8_append_utf32 s u = (true, s ++ utf8_encoding u) := by
  obtain ⟨hmax, hsur⟩ := hu
  simp only [utf8_append_utf32, utf8_encoding]
  by_cases h1 : u ≤ 0x7f
  · rw [if_pos h1, if_pos h1]
    have : to_char (u &&& 0xff) = u := by
      rw [unescape.mask_low u 0xff 8 (by decide)]
      simp only [to_char]
      omega
    rw [this]
  · rw [if_neg h1, if_neg h1]
    by_cases h2 : u ≤ 0x7ff
    · rw [if_pos h2, if_pos h2]
      have e1 := unescape.byte_lead u 0x7c0 6 5 6 3 (by decide) (by decide) (by decide)
        (by norm_num; omega)
      have e2 := unescape.byte_low u
      norm_num at e1 e2 ⊢
      simp only [e1, e2, and_self]
    · rw [if_neg h2, if_neg h2]
      by_cases h3 : u ≤ 0xffff
      · rw [if_pos h3, if_pos h3, if_neg (by omega)]
        have e1 := unescape.byte_lead u 0xf000 12 4 5 7 (by decide) (by decide) (by decide)
          (by norm_num; omega)
        have e2 := unescape.byte_mid u 0xfc0 6 (by decide)
        have e3 := unescape.byte_low u
        norm_num at e1 e2 e3 ⊢
        simp only [e1, e2, e3, and_self]
      · rw [if_neg h3, if_neg h3, if_pos hmax]
        have e1 := unescape.byte_lead u 0x1c0000 18 3 4 15 (by decide) (by decide) (by decide)
          (by norm_num; omega)
        have e2 := unescape.byte_mid u 0x3f000 12 (by decide)
        have e3 := unescape.byte_mid u 0xfc0 6 (by decide)
        have e4 := unescape.byte_low u
        norm_num at e1 e2 e3 e4 ⊢
        simp only [e1, e2, e3, e4, and_self]

theorem unescape.utf8_append_utf32_reject (s : List Nat) (u : Nat) (hu : ¬ is_scalar u) :
    utf8_append_utf32 s u = (false, s) := by
  simp only [is_scalar, not_and, not_not] at hu
  simp only [utf8_append_utf32]
  by_cases hmax : u ≤ 0x10ffff
  · have hs := hu hmax
    rw [if_neg (by omega), if_neg (by omega), if_pos (by omega), if_pos (by omega)]
  · rw [if_neg (by omega), if_neg (by omega), if_neg (by omega), if_neg hmax]

theorem reference.utf8_decode_encoding (u : Nat) (hu : u ≤ 0x10FFFF) :
    utf8_decode (utf8_encoding u) = some u := by
  simp only [utf8_encoding]
  by_cases h1 : u ≤ 0x7F
  · rw [if_pos h1]
    simp only [utf8_decode]
    rw [if_pos (by omega)]
  · rw [if_neg h1]
    by_cases h2 : u ≤ 0x7FF
    · rw [if_pos h2]
      simp only [utf8_decode]
      rw [if_pos (by omega)]
      congr 1
      omega
    · rw [if_neg h2]
      by_cases h3 : u ≤ 0xFFFF
      · rw [if_pos h3]
        simp only [utf8_decode]
        rw [if_pos (by omega)]
        congr 1
        omega
      · rw [if_neg h3]
        simp only [utf8_decode]
        rw [if_pos (by omega)]
        congr 1
        omega

theorem unescape.unhex_char_eq (c : Nat) : unhex_char c = xdigit_value c := by
  by_cases h : c ≤ 102
  · interval_cases c <;> rfl
  · have h1 : c ∉ xdigits_lower := by
      intro hm
      simp only [xdigits_lower, List.mem_cons, List.mem_singleton, List.not_mem_nil,
        or_false] at hm
      omega
    have h2 : c ∉ xdigits_upper := by
      intro hm
      simp only [xdigits_upper, List.mem_cons, List.mem_singleton, List.not_mem_nil,
        or_false] at hm
      omega
    simp only [xdigit_value, if_neg h1, if_neg h2, unhex_char]
    rw [if_neg (by omega), if_neg (by omega), if_neg (by omega)]

theorem reference.xdigit_value_le (c : Nat) : (xdigit_value c).getD 0 ≤ 15 := by
  by_cases h : c ≤ 102
  · interval_cases c <;> decide
  · rw [← unescape.unhex_char_eq]
    simp only [unhex_char]
    rw [if_neg (by omega), if_neg (by omega), if_neg (by omega)]
    decide

theorem reference.foldl_hex_mod (m : Nat) (ds : List Nat) : ∀ a : Nat,
    (ds.foldl (fun r c => 16 * r + (xdigit_value c).getD 0) (a % m)) % m =
      (ds.foldl (fun r c => 16 * r + (xdigit_value c).getD 0) a) % m := by
  induction ds with
  | nil => intro a; simp
  | cons c rest ih =>
    intro a
    simp only [List.foldl_cons]
    rw [← ih (16 * (a % m) + (xdigit_value c).getD 0), ← ih (16 * a + (xdigit_value c).getD 0)]
    congr 2
    rw [Nat.add_mod, Nat.mul_mod, Nat.mod_mod, ← Nat.mul_mod, ← Nat.add_mod]

theorem unescape.unhex_string_loop_value (bits : Nat) (ds : List Nat) :
    ∀ r : Nat, (∀ c ∈ ds, is_xdigit c) →
      unhex_string_loop bits ds (r % 2 ^ bits) =
        some ((ds.foldl (fun r c => 16 * r + (xdigit_value c).getD 0) r) % 2 ^ bits) := by
  induction ds with
  | nil => intro r _; simp [unhex_string_loop]
  | cons c rest ih =>
    intro r hds
    have hc : is_xdigit c := hds c (List.mem_cons_self _ _)
    have hrest : ∀ c ∈ rest, is_xdigit c := fun x hx => hds x (List.mem_cons_of_mem _ hx)
    simp only [is_xdigit, Option.isSome_iff_exists] at hc
    obtain ⟨d, hd⟩ := hc
    simp only [unhex_string_loop, unescape.unhex_char_eq, hd, List.foldl_cons, Option.getD_some]
    have e : ((r % 2 ^ bits) <<< 4 % 2 ^ bits + d) % 2 ^ bits = (16 * r + d) % 2 ^ bits := by
      rw [Nat.shiftLeft_eq, Nat.add_mod, Nat.mod_mod, Nat.mul_mod, Nat.mod_mod, ← Nat.mul_mod,
        ← Nat.add_mod, Nat.mul_comm]
    rw [e, ih (16 * r + d) hrest]

theorem unescape.unhex_string_value (bits : Nat) (ds : List Nat) (hds : ∀ c ∈ ds, is_xdigit c) :
    unhex_string bits ds = some (hex_value ds % 2 ^ bits) := by
  have h := unescape.unhex_string_loop_value bits ds 0 hds
  simpa [unhex_string, hex_value] using h

theorem reference.foldl_hex_lt (ds : List Nat) : ∀ a : Nat,
    ds.foldl (fun r c => 16 * r + (xdigit_value c).getD 0) a < (a + 1) * 16 ^ ds.length := by
  induction ds with
  | nil => intro a; simp
  | cons c rest ih =>
    intro a
    simp only [List.foldl_cons, List.length_cons]
    have h1 := ih (16 * a + (xdigit_value c).getD 0)
    have h2 := reference.xdigit_value_le c
    have h3 : (16 * a + (xdigit_value c).getD 0 + 1) * 16 ^ rest.length ≤
        (a + 1) * 16 ^ (rest.length + 1) := by
      rw [Nat.pow_succ, ← Nat.mul_assoc, Nat.mul_comm ((a + 1) * 16 ^ rest.length) 16,
        ← Nat.mul_assoc]
      apply Nat.mul_le_mul_right
      omega
    omega

theorem reference.hex_value_lt (ds : List Nat) : hex_value ds < 16 ^ ds.length := by
  have h := reference.foldl_hex_lt ds 0
  simpa [hex_value] using h

theorem unescape.apply_two_loop_none (c : Nat) (q r : List Nat) : ∀ n i : Nat,
    n + i = q.length → (∀ j, i ≤ j → j < q.length → q.getD j 0 ≠ c) →
      unescape_c.apply_two_loop c q r n i = none := by
  intro n
  induction n with
  | zero => intro i _ _; rfl
  | succ n ih =>
    intro i hn hq
    simp only [unescape_c.apply_two_loop]
    rw [if_neg (hq i (le_refl _) (by omega))]
    exact ih (i + 1) (by omega) (fun j hj hjl => hq j (by omega) hjl)

theorem unescape.apply_two_loop_found (c : Nat) (q r : List Nat) (k : Nat) (hk : k < q.length)
    (hqk : q.getD k 0 = c) : ∀ n i : Nat, n + i = q.length → i ≤ k →
      (∀ j, i ≤ j → j < k → q.getD j 0 ≠ c) →
      unescape_c.apply_two_loop c q r n i = some (r.getD k 0) := by
  intro n
  induction n with
  | zero => intro i hn hik _; omega
  | succ n ih =>
    intro i hn hik hq
    simp only [unescape_c.apply_two_loop]
    by_cases hi : i = k
    · subst hi
      rw [if_pos hqk]
    · rw [if_neg (hq i (le_refl _) (by omega))]
      exact ih (i + 1) (by omega) (by omega) (fun j hj hjl => hq j (by omega) hjl)

theorem unescape.loop_done (ex : Bool) (fuel : Nat) (s : List Nat) :
    unescape_j.loop ex (fuel + 1) [] s = { status := .returned true, s := s } := by
  simp [unescape_j.loop]

theorem unescape.loop_plain (ex : Bool) (fuel : Nat) (rest s : List Nat) (c : Nat)
    (hne : rest.length ≠ 0) (hc : unhex_string 32 (rest.take 4) = some c)
    (hno : ¬ (0xd800 ≤ c ∧ c ≤ 0xdbff ∧ 6 < rest.length)) :
    unescape_j.loop ex (fuel + 1) rest s =
      if !(utf8_append_utf32 s c).1 then
        { status := if ex then .parse_error else .returned false, s := (utf8_append_utf32 s c).2 }
      else unescape_j.loop ex fuel (rest.drop 6) (utf8_append_utf32 s c).2 := by
  rw [unescape_j.loop]
  simp only [hc, if_neg hne, if_neg hno]

theorem unescape.loop_pair_miss (ex : Bool) (fuel : Nat) (rest s : List Nat) (c d : Nat)
    (hne : rest.length ≠ 0) (hc : unhex_string 32 (rest.take 4) = some c)
    (hhigh : 0xd800 ≤ c ∧ c ≤ 0xdbff ∧ 6 < rest.length)
    (hd : unhex_string 32 ((rest.drop 6).take 4) = some d)
    (hlow : ¬ (0xdc00 ≤ d ∧ d ≤ 0xdfff)) :
    unescape_j.loop ex (fuel + 1) rest s =
      if !(utf8_append_utf32 s c).1 then
        { status := if ex then .parse_error else .returned false, s := (utf8_append_utf32 s c).2 }
      else unescape_j.loop ex fuel (rest.drop 6) (utf8_append_utf32 s c).2 := by
  rw [unescape_j.loop]
  simp only [hc, if_neg hne, if_pos hhigh, hd, if_neg hlow]

theorem unescape.loop_pair_hit (ex : Bool) (fuel : Nat) (rest s : List Nat) (c d : Nat)
    (hne : rest.length ≠ 0) (hc : unhex_string 32 (rest.take 4) = some c)
    (hhigh : 0xd800 ≤ c ∧ c ≤ 0xdbff ∧ 6 < rest.length)
    (hd : unhex_string 32 ((rest.drop 6).take 4) = some d)
    (hlow : 0xdc00 ≤ d ∧ d ≤ 0xdfff) :
    unescape_j.loop ex (fuel + 1) rest s =
      unescape_j.loop ex fuel ((rest.drop 6).drop 6)
        (utf8_append_utf32 s
          (to_unsigned ((to_unsigned ((c &&& 0x03ff) <<< 10) ||| (d &&& 0x03ff)) + 0x10000))).2 := by
  rw [unescape_j.loop]
  simp only [hc, if_neg hne, if_pos hhigh, hd, if_pos hlow]

theorem reference.surrogate_pair_value_eq (h l : Nat) (hh : is_high_surrogate h)
    (hl : is_low_surrogate l) :
    surrogate_pair_value h l = 0x10000 + (h - 0xD800) * 1024 + (l - 0xDC00) ∧
    to_unsigned ((to_unsigned ((h &&& 0x03ff) <<< 10) ||| (l &&& 0x03ff)) + 0x10000) =
      surrogate_pair_value h l := by
  obtain ⟨hh1, hh2⟩ := hh
  obtain ⟨hl1, hl2⟩ := hl
  have e1 : h &&& 0x3ff = h % 2 ^ 10 := unescape.mask_low h 0x3ff 10 (by decide)
  have e2 : l &&& 0x3ff = l % 2 ^ 10 := unescape.mask_low l 0x3ff 10 (by decide)
  have e3 : (h % 2 ^ 10) <<< 10 ||| l % 2 ^ 10 = 2 ^ 10 * (h % 2 ^ 10) + l % 2 ^ 10 := by
    rw [Nat.shiftLeft_eq, Nat.mul_comm, ← Nat.mul_add_lt_is_or (Nat.mod_lt _ (by decide))]
  have e4 : surrogate_pair_value h l = 0x10000 + (h - 0xD800) * 1024 + (l - 0xDC00) := by
    simp only [surrogate_pair_value]
    rw [e1, e2, e3]
    norm_num
    omega
  refine ⟨e4, ?_⟩
  have e5 : to_unsigned ((h &&& 0x3ff) <<< 10) = (h &&& 0x3ff) <<< 10 := by
    simp only [to_unsigned]
    rw [e1, Nat.shiftLeft_eq]
    apply Nat.mod_eq_of_lt
    norm_num
    omega
  rw [e5]
  change to_unsigned (surrogate_pair_value h l) = surrogate_pair_value h l
  rw [e4]
  simp only [to_unsigned]
  omega

theorem reference.length_four (g : List Nat) (h : g.length = 4) :
    ∃ a b c d, g = [a, b, c, d] := by
  match g, h with
  | [a, b, c, d], _ => exact ⟨a, b, c, d, rfl⟩

theorem reference.escapes_tail_single (g : List Nat) (h : g.length = 4) :
    (escapes_tail [g]).length ≠ 0 ∧ (escapes_tail [g]).take 4 = g ∧
    ¬ 6 < (escapes_tail [g]).length ∧ (escapes_tail [g]).drop 6 = escapes_tail [] := by
  obtain ⟨a, b, c, d, rfl⟩ := reference.length_four g h
  simp [escapes_tail]

theorem reference.escapes_tail_more (g g2 : List Nat) (gs : List (List Nat)) (h : g.length = 4)
    (h2 : g2.length = 4) :
    (escapes_tail (g :: g2 :: gs)).length ≠ 0 ∧ (escapes_tail (g :: g2 :: gs)).take 4 = g ∧
    6 < (escapes_tail (g :: g2 :: gs)).length ∧
    (escapes_tail (g :: g2 :: gs)).drop 6 = escapes_tail (g2 :: gs) ∧
    ((escapes_tail (g :: g2 :: gs)).drop 6).take 4 = g2 ∧
    ((escapes_tail (g :: g2 :: gs)).drop 6).drop 6 = escapes_tail gs := by
  obtain ⟨a, b, c, d, rfl⟩ := reference.length_four g h
  obtain ⟨a2, b2, c2, d2, rfl⟩ := reference.length_four g2 h2
  cases gs with
  | nil => simp [escapes_tail]
  | cons g3 gs => simp [escapes_tail]

theorem reference.unit_value (g : List Nat) (h : g.length = 4) (hx : ∀ c ∈ g, is_xdigit c) :
    unhex_string 32 g = some (hex_value g) ∧ hex_value g < 65536 := by
  have hlt := reference.hex_value_lt g
  rw [h] at hlt
  norm_num at hlt
  refine ⟨?_, hlt⟩
  rw [unescape.unhex_string_value 32 g hx, Nat.mod_eq_of_lt]
  norm_num
  omega

theorem unescape.loop_decode (ex : Bool) : ∀ (fuel : Nat) (groups : List (List Nat)) (s : List Nat),
    four_digit_groups groups → groups.length < fuel →
    (∀ cps, utf16_decode (groups.map hex_value) = some cps →
      unescape_j.loop ex fuel (escapes_tail groups) s =
        { status := .returned true, s := s ++ (cps.map utf8_encoding).flatten }) ∧
    (utf16_decode (groups.map hex_value) = none →
      (unescape_j.loop ex fuel (escapes_tail groups) s).status =
        if ex then .parse_error else .returned false) := by
  intro fuel
  induction fuel with
  | zero => intro groups s _ h; omega
  | succ fuel ih =>
    intro groups s hv hlen
    match groups, hv, hlen with
    | [], _, _ =>
      simp [escapes_tail, utf16_decode, unescape.loop_done]
    | [g], hv, hlen =>
      obtain ⟨hg4, hgx⟩ := hv g (List.mem_cons_self _ _)
      obtain ⟨hne, htake, hshort, hdrop⟩ := reference.escapes_tail_single g hg4
      obtain ⟨hc0, hc16⟩ := reference.unit_value g hg4 hgx
      have hc : unhex_string 32 ((escapes_tail [g]).take 4) = some (hex_value g) := by
        rw [htake]; exact hc0
      have hstep := unescape.loop_plain ex fuel (escapes_tail [g]) s (hex_value g) hne hc
        (by omega)
      rw [hdrop] at hstep
      simp only [List.map, utf16_decode]
      by_cases hsur : is_high_surrogate (hex_value g) ∨ is_low_surrogate (hex_value g)
      · have hns : ¬ is_scalar (hex_value g) := by
          unfold is_scalar
          unfold is_high_surrogate is_low_surrogate at hsur
          omega
        rw [hstep, unescape.utf8_append_utf32_reject s _ hns, if_pos hsur]
        simp
      · have hsc : is_scalar (hex_value g) := by
          unfold is_scalar
          unfold is_high_surrogate is_low_surrogate at hsur
          omega
        rw [hstep, unescape.utf8_append_utf32_scalar s _ hsc, if_neg hsur]
        have hfuel : 0 < fuel := by simp at hlen; omega
        obtain ⟨k, rfl⟩ := Nat.exists_eq_succ_of_ne_zero (Nat.pos_iff_ne_zero.mp hfuel)
        simp [escapes_tail, unescape.loop_done]
    | g :: g2 :: gs, hv, hlen =>
      obtain ⟨hg4, hgx⟩ := hv g (List.mem_cons_self _ _)
      obtain ⟨hg24, hg2x⟩ := hv g2 (List.mem_cons_of_mem _ (List.mem_cons_self _ _))
      have hv1 : four_digit_groups (g2 :: gs) := fun x hx => hv x (List.mem_cons_of_mem _ hx)
      have hv2 : four_digit_groups gs := fun x hx => hv1 x (List.mem_cons_of_mem _ hx)
      obtain ⟨hne, htake, hlong, hdrop, htake2, hdrop2⟩ :=
        reference.escapes_tail_more g g2 gs hg4 hg24
      obtain ⟨hc0, hc16⟩ := reference.unit_value g hg4 hgx
      obtain ⟨hd0, hd16⟩ := reference.unit_value g2 hg24 hg2x
      have hc : unhex_string 32 ((escapes_tail (g :: g2 :: gs)).take 4) = some (hex_value g) := by
        rw [htake]; exact hc0
      have hd : unhex_string 32 (((escapes_tail (g :: g2 :: gs)).drop 6).take 4) =
          some (hex_value g2) := by
        rw [htake2]; exact hd0
      simp only [List.length_cons] at hlen
      simp only [List.map, utf16_decode]
      by_cases hhigh : is_high_surrogate (hex_value g)
      · rw [if_pos hhigh]
        have hcond : 0xd800 ≤ hex_value g ∧ hex_value g ≤ 0xdbff ∧
            6 < (escapes_tail (g :: g2 :: gs)).length := ⟨hhigh.1, hhigh.2, hlong⟩
        by_cases hlow : is_low_surrogate (hex_value g2)
        · rw [if_pos hlow]
          have hstep := unescape.loop_pair_hit ex fuel (escapes_tail (g :: g2 :: gs)) s
            (hex_value g) (hex_value g2) hne hc hcond hd hlow
          obtain ⟨hval, hcode⟩ := reference.surrogate_pair_value_eq _ _ hhigh hlow
          have hsc : is_scalar (surrogate_pair_value (hex_value g) (hex_value g2)) := by
            unfold is_scalar
            unfold is_high_surrogate at hhigh
            unfold is_low_surrogate at hlow
            omega
          rw [hstep, hdrop2, hcode, unescape.utf8_append_utf32_scalar s _ hsc]
          have hi := ih gs (s ++ utf8_encoding (surrogate_pair_value (hex_value g) (hex_value g2)))
            hv2 (by omega)
          constructor
          · intro cps hcps
            cases hdec : utf16_decode (gs.map hex_value) with
            | none => simp [hdec] at hcps
            | some tl =>
              simp only [hdec, Option.map_some', Option.some.injEq] at hcps
              subst hcps
              rw [hi.1 tl hdec]
              simp
          · intro hnone
            cases hdec : utf16_decode (gs.map hex_value) with
            | none => exact hi.2 hdec
            | some tl => simp [hdec] at hnone
        · rw [if_neg hlow]
          have hstep := unescape.loop_pair_miss ex fuel (escapes_tail (g :: g2 :: gs)) s
            (hex_value g) (hex_value g2) hne hc hcond hd hlow
          have hns : ¬ is_scalar (hex_value g) := by
            unfold is_scalar
            unfold is_high_surrogate at hhigh
            omega
          rw [hstep, unescape.utf8_append_utf32_reject s _ hns]
          simp
      · rw [if_neg hhigh]
        have hstep := unescape.loop_plain ex fuel (escapes_tail (g :: g2 :: gs)) s (hex_value g)
          hne hc (fun h => hhigh ⟨h.1, h.2.1⟩)
        rw [hdrop] at hstep
        by_cases hlow : is_low_surrogate (hex_value g)
        · rw [if_pos hlow]
          have hns : ¬ is_scalar (hex_value g) := by
            unfold is_scalar
            unfold is_low_surrogate at hlow
            omega
          rw [hstep, unescape.utf8_append_utf32_reject s _ hns]
          simp
        · rw [if_neg hlow]
          have hsc : is_scalar (hex_value g) := by
            unfold is_scalar
            unfold is_high_surrogate at hhigh
            unfold is_low_surrogate at hlow
            omega
          rw [hstep, unescape.utf8_append_utf32_scalar s _ hsc]
          have hi := ih (g2 :: gs) (s ++ utf8_encoding (hex_value g)) hv1
            (by simp only [List.length_cons]; omega)
          simp only [List.map] at hi
          constructor
          · intro cps hcps
            cases hdec : utf16_decode (hex_value g2 :: gs.map hex_value) with
            | none => simp [hdec] at hcps
            | some tl =>
              simp only [hdec, Option.map_some', Option.some.injEq] at hcps
              subst hcps
              simp only [Bool.not_true, Bool.false_eq_true, if_false]
              rw [hi.1 tl hdec]
              simp
          · intro hnone
            cases hdec : utf16_decode (hex_value g2 :: gs.map hex_value) with
            | none =>
              simp only [Bool.not_true, Bool.false_eq_true, if_false]
              exact hi.2 hdec
            | some tl => simp [hdec] at hnone

theorem reference.not_surrogate_zero : ¬ is_high_surrogate 0 ∧ ¬ is_low_surrogate 0 := by
  unfold is_high_surrogate is_low_surrogate
  omega

theorem reference.high_not_low (u : Nat) (h : is_high_surrogate u) : ¬ is_low_surrogate u := by
  unfold is_high_surrogate at h
  unfold is_low_surrogate
  omega

theorem reference.well_formed_low_head (u : Nat) (t : List Nat) (hl : is_low_surrogate u) :
    ¬ utf16_well_formed (u :: t) := by
  intro h
  have h0 := (h 0 (by simp)).2
  simp only [List.getD_cons_zero] at h0
  have := (h0 hl).1
  omega

theorem reference.well_formed_high_alone (u : Nat) (t : List Nat) (hh : is_high_surrogate u)
    (hn : ¬ is_low_surrogate (t.getD 0 0)) : ¬ utf16_well_formed (u :: t) := by
  intro h
  have h0 := (h 0 (by simp)).1
  simp only [List.getD_cons_zero, Nat.zero_add, List.getD_cons_succ] at h0
  exact hn (h0 hh)

theorem reference.well_formed_plain (u : Nat) (t : List Nat) (hh : ¬ is_high_surrogate u)
    (hl : ¬ is_low_surrogate u) : utf16_well_formed (u :: t) ↔ utf16_well_formed t := by
  constructor
  · intro h i hi
    have hi1 := h (i + 1) (by simp only [List.length_cons]; omega)
    simp only [List.getD_cons_succ, Nat.add_sub_cancel] at hi1
    refine ⟨hi1.1, fun hlow => ?_⟩
    have h2 := hi1.2 hlow
    rcases i with _ | j
    · simp only [List.getD_cons_zero] at h2
      exact absurd h2.2 hh
    · simp only [List.getD_cons_succ] at h2
      exact ⟨by omega, by simpa using h2.2⟩
  · intro h i hi
    rcases i with _ | j
    · simp only [List.getD_cons_zero]
      exact ⟨fun x => absurd x hh, fun x => absurd x hl⟩
    · have hj := h j (by simp only [List.length_cons] at hi; omega)
      simp only [List.getD_cons_succ, Nat.add_sub_cancel]
      refine ⟨hj.1, fun hlow => ⟨by omega, ?_⟩⟩
      have h2 := hj.2 hlow
      rcases j with _ | k
      · omega
      · simp only [List.getD_cons_succ]
        simpa using h2.2

theorem reference.well_formed_pair (u l : Nat) (t : List Nat) (hh : is_high_surrogate u)
    (hl : is_low_surrogate l) : utf16_well_formed (u :: l :: t) ↔ utf16_well_formed t := by
  have hlh : ¬ is_high_surrogate l := by
    unfold is_low_surrogate at hl
    unfold is_high_surrogate
    omega
  constructor
  · intro h i hi
    have hi2 := h (i + 2) (by simp only [List.length_cons]; omega)
    simp only [List.getD_cons_succ] at hi2
    refine ⟨hi2.1, fun hlow => ?_⟩
    have h2 := hi2.2 hlow
    rcases i with _ | j
    · simp only [Nat.zero_add, Nat.add_one_sub_one, List.getD_cons_succ,
        List.getD_cons_zero] at h2
      exact absurd h2.2 hlh
    · simp only [Nat.add_one_sub_one, List.getD_cons_succ] at h2
      exact ⟨by omega, by simpa using h2.2⟩
  · intro h i hi
    rcases i with _ | _ | j
    · simp only [List.getD_cons_zero, Nat.zero_add, List.getD_cons_succ]
      exact ⟨fun _ => hl, fun x => absurd x (reference.high_not_low u hh)⟩
    · simp only [Nat.zero_add, List.getD_cons_succ, List.getD_cons_zero, Nat.add_one_sub_one]
      exact ⟨fun x => absurd x hlh, fun _ => ⟨by omega, hh⟩⟩
    · have hj := h j (by simp only [List.length_cons] at hi; omega)
      simp only [List.getD_cons_succ, Nat.add_one_sub_one]
      refine ⟨hj.1, fun hlow => ⟨by omega, ?_⟩⟩
      have h2 := hj.2 hlow
      rcases j with _ | k
      · omega
      · simp only [List.getD_cons_succ]
        simpa using h2.2

theorem reference.utf16_decode_isSome : ∀ units : List Nat,
    (utf16_decode units).isSome = true ↔ utf16_well_formed units
  | [] => by
    simp only [utf16_decode, Option.isSome_some, true_iff]
    intro i hi
    simp at hi
  | [u] => by
    simp only [utf16_decode]
    by_cases hh : is_high_surrogate u
    · rw [if_pos (Or.inl hh)]
      simp only [Option.isSome_none, Bool.false_eq_true, false_iff]
      exact reference.well_formed_high_alone u [] hh (by simpa using reference.not_surrogate_zero.2)
    · by_cases hl : is_low_surrogate u
      · rw [if_pos (Or.inr hl)]
        simp only [Option.isSome_none, Bool.false_eq_true, false_iff]
        exact reference.well_formed_low_head u [] hl
      · rw [if_neg (by tauto)]
        simp only [Option.isSome_some, true_iff]
        rw [reference.well_formed_plain u [] hh hl]
        intro i hi
        simp at hi
  | u :: l :: rest => by
    simp only [utf16_decode]
    by_cases hh : is_high_surrogate u
    · rw [if_pos hh]
      by_cases hl : is_low_surrogate l
      · rw [if_pos hl, Option.isSome_map', reference.utf16_decode_isSome rest,
          reference.well_formed_pair u l rest hh hl]
      · rw [if_neg hl]
        simp only [Option.isSome_none, Bool.false_eq_true, false_iff]
        exact reference.well_formed_high_alone u (l :: rest) hh (by simpa using hl)
    · rw [if_neg hh]
      by_cases hl : is_low_surrogate u
      · rw [if_pos hl]
        simp only [Option.isSome_none, Bool.false_eq_true, false_iff]
        exact reference.well_formed_low_head u (l :: rest) hl
      · rw [if_neg hl, Option.isSome_map', reference.utf16_decode_isSome (l :: rest),
          reference.well_formed_plain u (l :: rest) hh hl]

theorem reference.escapes_tail_length : ∀ groups : List (List Nat), four_digit_groups groups →
    (escapes_tail groups).length + 2 = 6 * groups.length ∨ groups = []
  | [], _ => Or.inr rfl
  | [g], hv => by
    have h4 := (hv g (List.mem_cons_self _ _)).1
    simp [escapes_tail, h4]
  | g :: g2 :: gs, hv => by
    have h4 := (hv g (List.mem_cons_self _ _)).1
    have hv1 : four_digit_groups (g2 :: gs) := fun x hx => hv x (List.mem_cons_of_mem _ hx)
    have ih := reference.escapes_tail_length (g2 :: gs) hv1
    simp only [reference.escapes_tail, List.length_append, List.length_cons, List.length_nil, h4]
    simp only [List.length_cons] at ih
    left
    rcases ih with ih | ih
    · omega
    · cases ih

theorem unescape.apply_j_decode (ex : Bool) (groups : List (List Nat)) (s : List Nat)
    (hne : groups ≠ []) (hv : four_digit_groups groups) :
    (escapes_span groups).length + 1 = 6 * groups.length ∧
    (∀ cps, utf16_decode (groups.map hex_value) = some cps →
      unescape_j.apply ex (escapes_span groups) s =
        { status := .returned true, s := s ++ (cps.map utf8_encoding).flatten }) ∧
    (utf16_decode (groups.map hex_value) = none →
      (unescape_j.apply ex (escapes_span groups) s).status =
        if ex then .parse_error else .returned false) := by
  have hlen : (escapes_tail groups).length + 2 = 6 * groups.length := by
    rcases reference.escapes_tail_length groups hv with h | h
    · exact h
    · exact absurd h hne
  have hk : 0 < groups.length := List.length_pos.mpr hne
  have hspan : (escapes_span groups).length + 1 = 6 * groups.length := by
    simp only [escapes_span, List.length_cons]
    omega
  have hmod : ((escapes_span groups).length + 1) % 6 = 0 := by
    rw [hspan]
    omega
  have happ : unescape_j.apply ex (escapes_span groups) s =
      unescape_j.loop ex (escapes_span groups).length (escapes_tail groups) s := by
    simp only [unescape_j.apply, if_pos hmod]
    rfl
  have hloop := unescape.loop_decode ex (escapes_span groups).length groups s hv (by omega)
  rw [happ]
  exact ⟨hspan, hloop.1, hloop.2⟩

theorem Session.call_keeps_window (R : Reader ρ) (Chunk Eol_ch : Nat) (t : Session ρ) (c : Call)
    (e0 : Nat) (m0 : Nat → Nat)
    (hnd : Session.no_effective_discard R Chunk Eol_ch t [c] = true)
    (he : e0 ≤ t.input.m_end) (hm : ∀ a, a < e0 → t.input.memory a = m0 a) :
    e0 ≤ (t.call R Chunk Eol_ch c).input.m_end ∧
    (∀ a, a < e0 → (t.call R Chunk Eol_ch c).input.memory a = m0 a) := by
  cases c with
  | require amount =>
    simp only [Session.call, require]
    split
    · exact ⟨he, hm⟩
    · split
      · exact ⟨he, hm⟩
      · split
        · refine ⟨by simp only; omega, ?_⟩
          intro a ha
          simp only
          rw [store_below _ _ _ _ (by omega)]
          exact hm a ha
        · exact ⟨he, hm⟩
  | bump k => exact ⟨he, hm⟩
  | discard =>
    simp only [Session.no_effective_discard, Bool.and_true, decide_eq_true_eq] at hnd
    simp only [Session.call, buffer_input.discard]
    rw [if_neg (by omega)]
    exact ⟨he, hm⟩

theorem Session.no_effective_discard_cons (R : Reader ρ) (Chunk Eol_ch : Nat) (t : Session ρ)
    (c : Call) (cs : List Call)
    (h : Session.no_effective_discard R Chunk Eol_ch t (c :: cs) = true) :
    Session.no_effective_discard R Chunk Eol_ch t [c] = true ∧
    Session.no_effective_discard R Chunk Eol_ch (t.call R Chunk Eol_ch c) cs = true := by
  cases c with
  | require amount =>
    simp only [Session.no_effective_discard] at h ⊢
    exact ⟨trivial, h⟩
  | bump k =>
    simp only [Session.no_effective_discard] at h ⊢
    exact ⟨trivial, h⟩
  | discard =>
    simp only [Session.no_effective_discard, Bool.and_eq_true, decide_eq_true_eq,
      Bool.and_true] at h ⊢
    exact h

theorem Session.run_keeps_window (R : Reader ρ) (Chunk Eol_ch : Nat) (e0 : Nat) (m0 : Nat → Nat)
    (calls : List Call) : ∀ t : Session ρ,
      Session.no_effective_discard R Chunk Eol_ch t calls = true →
      e0 ≤ t.input.m_end → (∀ a, a < e0 → t.input.memory a = m0 a) →
      e0 ≤ (t.run R Chunk Eol_ch calls).input.m_end ∧
      (∀ a, a < e0 → (t.run R Chunk Eol_ch calls).input.memory a = m0 a) := by
  induction calls with
  | nil => intro t _ he hm; exact ⟨he, hm⟩
  | cons c cs ih =>
    intro t hnd he hm
    obtain ⟨h1, h2⟩ := Session.no_effective_discard_cons R Chunk Eol_ch t c cs hnd
    obtain ⟨he1, hm1⟩ := Session.call_keeps_window R Chunk Eol_ch t c e0 m0 h1 he hm
    exact ih _ h2 he1 hm1

end lemmas

/-! ## The claims -/

section claims

open buffer_input Session

open unescape reference

variable {ρ : Type}

/-- C1 (window-content invariant).  After any sequence of `require`, `bump`
(never beyond `buffer_occupied()`) and `discard` calls on a freshly
constructed buffer whose reader never writes more than it is asked for,
`buffer_occupied()` returns `m_end - m_current.data`, and for every `i`
below it `peek_char( i )` is the byte at index `consumed + i` of the stream
of all bytes the reader has written so far. -/
theorem window_content_invariant (Chunk Eol_ch maximum addr : Nat) (R : Reader ρ) (reader : ρ)
    (mem0 : Nat → Nat) (s : buffer_input ρ) (calls : List Call)
    (hR : reader_within R)
    (hs : construct Chunk reader maximum addr mem0 = .ok s)
    (hcalls : allowed R Chunk Eol_ch (start s) calls = true) :
    ((start s).run R Chunk Eol_ch calls).input.buffer_occupied =
        .ok (((start s).run R Chunk Eol_ch calls).input.m_end -
          ((start s).run R Chunk Eol_ch calls).input.m_current.data) ∧
    ∀ i, i < ((start s).run R Chunk Eol_ch calls).input.m_end -
          ((start s).run R Chunk Eol_ch calls).input.m_current.data →
      ((start s).run R Chunk Eol_ch calls).stream[((start s).run R Chunk Eol_ch calls).consumed + i]? =
        some (((start s).run R Chunk Eol_ch calls).input.peek_char i) := by
  have h := Session.coherent_run R Chunk Eol_ch hR calls (start s) hcalls
    (Session.coherent_start Chunk reader maximum addr mem0 s hs)
  obtain ⟨⟨_, hb, _⟩, _, hwin, _⟩ := h
  refine ⟨by simp [buffer_occupied, hb], ?_⟩
  intro i hi
  exact hwin i hi

/-- C1, on the sample buffer (maximum 8, chunk 4): after
`require( 8 ); bump( 5 ); discard(); require( 8 )` the byte `peek_char( 2 )`
is the stream byte at index `5 + 2`. -/
theorem window_content_invariant_witness :
    ((start sample_input).run text_reader 4 10
        [.require 8, .bump 5, .discard, .require 8]).stream[5 + 2]? =
      some (((start sample_input).run text_reader 4 10
        [.require 8, .bump 5, .discard, .require 8]).input.peek_char 2) :=
  (window_content_invariant 4 10 8 1000 text_reader sample_text zero_memory sample_input
    [.require 8, .bump 5, .discard, .require 8] text_reader_within rfl rfl).2 2 (by decide)

/-- C2 (cursor invariant).  After any sequence of `require`, `discard` and
`bump` (never beyond `buffer_occupied()`) calls on a freshly constructed
buffer whose reader never writes more than it is asked for,
`m_buffer <= m_current.data <= m_end <= m_buffer + m_maximum` holds with
`m_maximum = maximum + Chunk`; the three capacity queries return without a
failed assertion, and no call of the sequence failed an assertion. -/
theorem cursor_invariant_reachable (Chunk Eol_ch maximum addr : Nat) (R : Reader ρ) (reader : ρ)
    (mem0 : Nat → Nat) (s : buffer_input ρ) (calls : List Call)
    (hC : Chunk ≤ SIZE_MAX) (hR : reader_within R)
    (hs : construct Chunk reader maximum addr mem0 = .ok s)
    (hcalls : allowed R Chunk Eol_ch (start s) calls = true) :
    ((start s).run R Chunk Eol_ch calls).input.cursor_invariant ∧
    ((start s).run R Chunk Eol_ch calls).input.buffer_capacity = maximum + Chunk ∧
    ((start s).run R Chunk Eol_ch calls).input.buffer_occupied =
        .ok (((start s).run R Chunk Eol_ch calls).input.m_end -
          ((start s).run R Chunk Eol_ch calls).input.m_current.data) ∧
    ((start s).run R Chunk Eol_ch calls).input.buffer_free_before_current =
        .ok (((start s).run R Chunk Eol_ch calls).input.m_current.data -
          ((start s).run R Chunk Eol_ch calls).input.m_buffer) ∧
    ((start s).run R Chunk Eol_ch calls).input.buffer_free_after_end =
        .ok (((start s).run R Chunk Eol_ch calls).input.m_buffer +
          ((start s).run R Chunk Eol_ch calls).input.m_maximum -
          ((start s).run R Chunk Eol_ch calls).input.m_end) ∧
    Fault.assertion_failed ∉ ((start s).run R Chunk Eol_ch calls).raised := by
  have h := Session.coherent_run R Chunk Eol_ch hR calls (start s) hcalls
    (Session.coherent_start Chunk reader maximum addr mem0 s hs)
  obtain ⟨hinv, _, _, hra⟩ := h
  have hm := (Session.run_m_maximum R Chunk Eol_ch calls (start s)).1
  have hs0 := (construct_ok Chunk reader maximum addr mem0 s hC hs).1
  have hmax : ((start s).run R Chunk Eol_ch calls).input.m_maximum = maximum + Chunk := by
    rw [hm, hs0]; rfl
  obtain ⟨ha, hb, hc⟩ := hinv
  refine ⟨⟨ha, hb, hc⟩, hmax, ?_, ?_, ?_, hra⟩
  · simp [buffer_occupied, hb]
  · simp [buffer_free_before_current, ha]
  · simp [buffer_free_after_end, hc]

/-- C2, on the sample buffer (maximum 8, chunk 4): after
`require( 8 ); bump( 5 ); discard(); require( 8 )` the cursors are
`1000 <= 1000 <= 1008 <= 1012`. -/
theorem cursor_invariant_reachable_witness :
    ((start sample_input).run text_reader 4 10
        [.require 8, .bump 5, .discard, .require 8]).input.cursor_invariant ∧
    ((start sample_input).run text_reader 4 10
        [.require 8, .bump 5, .discard, .require 8]).input.m_current.data = 1000 ∧
    ((start sample_input).run text_reader 4 10
        [.require 8, .bump 5, .discard, .require 8]).input.m_end = 1008 :=
  ⟨(cursor_invariant_reachable 4 10 8 1000 text_reader sample_text zero_memory sample_input
    [.require 8, .bump 5, .discard, .require 8] (by decide) text_reader_within rfl rfl).1,
    rfl, rfl⟩

/-- C3 as stated fails.  On the sample buffer (maximum 8, chunk 4, a reader
that keeps its contract) the sequence `require( 8 ); bump( 8 ); require( 8 )`
consists of `require` and `bump` only, requests at most the maximum each
time, never consumes more than is available, and yet the second
`require( 8 )` raises Overflow. -/
theorem requests_within_maximum_overflow :
    construct 4 sample_text 8 1000 zero_memory = .ok sample_input ∧
    reader_within text_reader ∧
    [Call.require 8, Call.bump 8, Call.require 8].all (Call.request_at_most 8) = true ∧
    allowed text_reader 4 10 (start sample_input)
      [Call.require 8, Call.bump 8, Call.require 8] = true ∧
    Fault.overflow_error ∈ ((start sample_input).run text_reader 4 10
      [Call.require 8, Call.bump 8, Call.require 8]).raised :=
  ⟨rfl, text_reader_within, rfl, rfl, by decide⟩

/-- C3, amended.  On a freshly constructed buffer with maximum `maximum` and
chunk size `Chunk`, with any reader, a sequence of `require` and `bump` calls
in which, at every `require( n )`, the bytes consumed so far plus `n` do not
exceed `maximum + Chunk` never raises Overflow. -/
theorem requests_fit_no_overflow (Chunk Eol_ch maximum addr : Nat) (R : Reader ρ) (reader : ρ)
    (mem0 : Nat → Nat) (s : buffer_input ρ) (calls : List Call)
    (hC : Chunk ≤ SIZE_MAX)
    (hs : construct Chunk reader maximum addr mem0 = .ok s)
    (hfit : Session.requests_fit R Chunk Eol_ch (maximum + Chunk) (start s) calls = true) :
    Fault.overflow_error ∉ ((start s).run R Chunk Eol_ch calls).raised := by
  have hs0 := (construct_ok Chunk reader maximum addr mem0 s hC hs).1
  apply Session.requests_fit_run R Chunk Eol_ch (maximum + Chunk) calls (start s) _ _ hfit
  · simp [start]
  · rw [hs0]; rfl
  · rw [hs0]; simp [start, frobnicator.at_start]

/-- C3 amended, on the sample buffer (maximum 8, chunk 4):
`require( 8 ); bump( 4 ); require( 8 )` stays within `8 + 4` and raises
nothing. -/
theorem requests_fit_no_overflow_witness :
    Session.requests_fit text_reader 4 10 (8 + 4) (start sample_input)
      [Call.require 8, Call.bump 4, Call.require 8] = true ∧
    Fault.overflow_error ∉ ((start sample_input).run text_reader 4 10
      [Call.require 8, Call.bump 4, Call.require 8]).raised :=
  ⟨rfl, requests_fit_no_overflow 4 10 8 1000 text_reader sample_text zero_memory sample_input
    [Call.require 8, Call.bump 4, Call.require 8] (by decide) rfl rfl⟩

/-- C4.  Take any state reached from a freshly constructed buffer (maximum
`maximum`, chunk `Chunk`) by any calls `before`, and call `discard()`.  Then
`m_current.data` lies at most `Chunk` bytes past `m_buffer`; and after any
further calls `after`, a `require( n )` with `n <= maximum`, issued while at
most `maximum - n` bytes have been consumed since that `discard()`, does not
raise Overflow. -/
theorem discard_then_require_fits (Chunk Eol_ch maximum addr : Nat) (R : Reader ρ) (reader : ρ)
    (mem0 : Nat → Nat) (s : buffer_input ρ) (before after : List Call) (n : Nat)
    (hC : Chunk ≤ SIZE_MAX)
    (hs : construct Chunk reader maximum addr mem0 = .ok s)
    (hn : n ≤ maximum)
    (hj : ((((start s).run R Chunk Eol_ch before).call R Chunk Eol_ch .discard).run
            R Chunk Eol_ch after).consumed -
          (((start s).run R Chunk Eol_ch before).call R Chunk Eol_ch .discard).consumed ≤
        maximum - n) :
    (((start s).run R Chunk Eol_ch before).call R Chunk Eol_ch .discard).input.m_current.data ≤
      (((start s).run R Chunk Eol_ch before).call R Chunk Eol_ch .discard).input.m_buffer + Chunk ∧
    (((((start s).run R Chunk Eol_ch before).call R Chunk Eol_ch .discard).run
        R Chunk Eol_ch after).input.require R Chunk n).fault ≠ some Fault.overflow_error := by
  have hs0 := (construct_ok Chunk reader maximum addr mem0 s hC hs).1
  have hm1 : ((start s).run R Chunk Eol_ch before).input.m_maximum = maximum + Chunk := by
    rw [(Session.run_m_maximum R Chunk Eol_ch before (start s)).1, hs0]; rfl
  generalize (start s).run R Chunk Eol_ch before = t1 at hj hm1 ⊢
  have hm2 := Session.call_m_maximum R Chunk Eol_ch t1 .discard
  have hnear : (t1.call R Chunk Eol_ch .discard).input.m_current.data ≤
      (t1.call R Chunk Eol_ch .discard).input.m_buffer + Chunk := by
    simp only [Session.call, buffer_input.discard]
    split
    · simp
    · omega
  generalize t1.call R Chunk Eol_ch .discard = t2 at hj hm2 hnear ⊢
  have hm3 := Session.run_m_maximum R Chunk Eol_ch after t2
  have hb := Session.run_cursor_bound R Chunk Eol_ch after t2.consumed Chunk t2 (by omega)
  refine ⟨hnear, ?_⟩
  rw [Ne, require_fault_overflow]
  omega

/-- C4, on the sample buffer (maximum 8, chunk 4): after
`require( 8 ); bump( 5 ); discard()` the cursor is back at the arena start,
and after a further `require( 8 ); bump( 4 )` a `require( 4 )` is issued with
`4 <= 8 - 4` bytes consumed since the `discard()` and does not overflow. -/
theorem discard_then_require_fits_witness :
    (((start sample_input).run text_reader 4 10 [.require 8, .bump 5]).call
        text_reader 4 10 .discard).input.m_current.data ≤ 1000 + 4 ∧
    (((((start sample_input).run text_reader 4 10 [.require 8, .bump 5]).call
        text_reader 4 10 .discard).run text_reader 4 10
          [.require 8, .bump 4]).input.require text_reader 4 4).fault ≠
      some Fault.overflow_error :=
  discard_then_require_fits 4 10 8 1000 text_reader sample_text zero_memory sample_input
    [.require 8, .bump 5] [.require 8, .bump 4] 4 (by decide) rfl (by decide) (by decide)

/-- C5.  In a state with `m_buffer <= m_current.data <= m_end`,
`require( n )` raises Overflow if and only if `buffer_occupied() < n` and
`buffer_free_before_current() + n > buffer_capacity()`; when it raises, the
state is unchanged and the reader has not been invoked.  On a freshly
constructed buffer with maximum `maximum` and chunk size `Chunk`,
`require( n )` raises Overflow if and only if `n > maximum + Chunk`. -/
theorem require_overflow_iff (R : Reader ρ) (Chunk : Nat) (s : buffer_input ρ) (n : Nat)
    (maximum addr : Nat) (reader : ρ) (mem0 : Nat → Nat) (s0 : buffer_input ρ)
    (h1 : s.m_buffer ≤ s.m_current.data) (h2 : s.m_current.data ≤ s.m_end)
    (hC : Chunk ≤ SIZE_MAX)
    (hs : construct Chunk reader maximum addr mem0 = .ok s0) :
    ((s.require R Chunk n).fault = some Fault.overflow_error ↔
      ∃ occ off, s.buffer_occupied = .ok occ ∧ s.buffer_free_before_current = .ok off ∧
        occ < n ∧ off + n > s.buffer_capacity) ∧
    ((s.require R Chunk n).fault = some Fault.overflow_error →
      (s.require R Chunk n).input = s ∧ (s.require R Chunk n).pulls = []) ∧
    ((s0.require R Chunk n).fault = some Fault.overflow_error ↔ n > maximum + Chunk) := by
  refine ⟨?_, ?_, ?_⟩
  · rw [require_fault_overflow]
    simp only [buffer_occupied, buffer_free_before_current, buffer_capacity, ge_iff_le, h1, h2,
      if_true]
    constructor
    · intro h
      exact ⟨_, _, rfl, rfl, by omega, by omega⟩
    · rintro ⟨occ, off, ho, hf, hlt, hgt⟩
      injection ho with ho
      injection hf with hf
      omega
  · intro h
    have h3 := (require_fault_overflow R Chunk s n).mp h
    simp [require, h3.1, h3.2]
  · obtain ⟨hs0, hpos, _⟩ := construct_ok Chunk reader maximum addr mem0 s0 hC hs
    rw [require_fault_overflow, hs0]
    simp only [frobnicator.at_start]
    omega

/-- C5, on the fresh buffer with maximum 4 and chunk 4 over a source that
never ends: `require( 9 )` raises Overflow, `require( 8 )` does not. -/
theorem require_overflow_iff_witness :
    (small_input.require endless_reader 4 9).fault = some Fault.overflow_error ∧
    (small_input.require endless_reader 4 8).fault ≠ some Fault.overflow_error :=
  ⟨(require_overflow_iff endless_reader 4 small_input 9 4 1000 0 zero_memory small_input
      (by decide) (by decide) (by decide) rfl).2.2.mpr (by decide),
   fun h => absurd ((require_overflow_iff endless_reader 4 small_input 8 4 1000 0 zero_memory
      small_input (by decide) (by decide) (by decide) rfl).2.2.mp h) (by decide)⟩

/-- C6.  In every state, if `buffer_occupied()` returns `occ` and
`n <= occ`, then `require( n )` returns normally, does not invoke the reader
and leaves the whole state (cursors, position counters, memory, reader)
as it was. -/
theorem require_satisfied (R : Reader ρ) (Chunk : Nat) (s : buffer_input ρ) (n occ : Nat)
    (hocc : s.buffer_occupied = .ok occ) (hn : n ≤ occ) :
    s.require R Chunk n = { fault := none, input := s, pulls := [] } := by
  simp only [buffer_occupied] at hocc
  split at hocc
  · rename_i hle
    injection hocc with hocc
    have : s.m_current.data + n ≤ s.m_end := by omega
    simp [require, this]
  · cases hocc

/-- C6, on the sample buffer after `require( 8 )` (8 bytes available): a
further `require( 3 )` makes no pull, raises nothing and leaves `m_end`,
`m_current` and the memory alone. -/
theorem require_satisfied_witness :
    ((start sample_input).run text_reader 4 10 [.require 8]).input.buffer_occupied = .ok 8 ∧
    (((start sample_input).run text_reader 4 10 [.require 8]).input.require
      text_reader 4 3).pulls = [] ∧
    (((start sample_input).run text_reader 4 10 [.require 8]).input.require
      text_reader 4 3).fault = none ∧
    (((start sample_input).run text_reader 4 10 [.require 8]).input.require
      text_reader 4 3).input.m_end = 1008 :=
  ⟨rfl,
   congrArg outcome.pulls (require_satisfied text_reader 4
     ((start sample_input).run text_reader 4 10 [.require 8]).input 3 8 rfl (by decide)),
   rfl, rfl⟩

/-- C7.  In a state where `buffer_occupied()` returns `occ` and
`buffer_free_after_end()` returns `free` (as they do under the cursor
invariant), if `require( n )` is not already satisfied (`occ < n`) and does
not raise Overflow, then with `L = min( free, max( n - occ, Chunk ) )`:
the `std::size_t` subtraction `n - occ` does not wrap, `1 <= L`,
`n - occ <= L`, `L <= free`, and the call invokes the reader exactly once, at
`m_end` with length `L`, returns normally, advances `m_end` by the number of
bytes the reader reports and leaves `m_current` (pointer and position
counters) unchanged. -/
theorem require_pulls_once (R : Reader ρ) (Chunk : Nat) (s : buffer_input ρ) (n occ free L : Nat)
    (hsz : n ≤ SIZE_MAX)
    (hocc : s.buffer_occupied = .ok occ) (hfree : s.buffer_free_after_end = .ok free)
    (hlt : occ < n) (hno : (s.require R Chunk n).fault ≠ some Fault.overflow_error)
    (hL : L = min free (max (n - occ) Chunk)) :
    size_t_sub n occ = n - occ ∧ 1 ≤ L ∧ n - occ ≤ L ∧ L ≤ free ∧
    s.require R Chunk n =
      { fault := none
        input := { s with m_reader := (R s.m_reader s.m_end L).2
                          memory := store s.memory s.m_end (R s.m_reader s.m_end L).1
                          m_end := s.m_end + (R s.m_reader s.m_end L).1.length }
        pulls := [{ dst := s.m_end, len := L, written := (R s.m_reader s.m_end L).1 }] } ∧
    (s.require R Chunk n).input.m_end = s.m_end + (R s.m_reader s.m_end L).1.length ∧
    (s.require R Chunk n).input.m_current = s.m_current := by
  have hocc0 := hocc
  have hfree0 := hfree
  simp only [buffer_occupied] at hocc
  split at hocc
  swap
  · cases hocc
  rename_i hle
  injection hocc with hocc
  simp only [buffer_free_after_end] at hfree
  split at hfree
  swap
  · cases hfree
  rename_i hle2
  injection hfree with hfree
  have hns : ¬ s.m_current.data + n ≤ s.m_end := by omega
  have hnov : ¬ s.m_current.data + n > s.m_buffer + s.m_maximum := by
    intro h
    exact hno ((require_fault_overflow R Chunk s n).mpr ⟨hns, h⟩)
  have hsub : size_t_sub n occ = n - occ := by
    simp only [size_t_sub, SIZE_MAX] at hsz ⊢
    omega
  have hL1 : 1 ≤ L := by
    rw [hL]
    omega
  have hL2 : n - occ ≤ L := by
    rw [hL]
    omega
  have hL3 : L ≤ free := by
    rw [hL]; exact Nat.min_le_left _ _
  have heq : s.require R Chunk n =
      { fault := none
        input := { s with m_reader := (R s.m_reader s.m_end L).2
                          memory := store s.memory s.m_end (R s.m_reader s.m_end L).1
                          m_end := s.m_end + (R s.m_reader s.m_end L).1.length }
        pulls := [{ dst := s.m_end, len := L, written := (R s.m_reader s.m_end L).1 }] } := by
    simp only [require, if_neg hns, if_neg hnov, hocc0, hfree0, hsub, ← hL]
  refine ⟨hsub, hL1, hL2, hL3, heq, ?_, ?_⟩
  · rw [heq]
  · rw [heq]

/-- C7, on the sample buffer after `require( 8 ); bump( 5 )` (3 bytes
available, 4 free after `m_end`): `require( 7 )` asks the reader once for
`min( 4, max( 7 - 3, 4 ) ) = 4` bytes at address 1008, and `m_end` moves
from 1008 to 1012 while `m_current` stays. -/
theorem require_pulls_once_witness :
    size_t_sub 7 3 = 7 - 3 ∧
    (((start sample_input).run text_reader 4 10 [.require 8, .bump 5]).input.require
      text_reader 4 7).pulls = [{ dst := 1008, len := 4, written := [105, 106, 107, 108] }] ∧
    (((start sample_input).run text_reader 4 10 [.require 8, .bump 5]).input.require
      text_reader 4 7).input.m_end = 1008 + 4 ∧
    (((start sample_input).run text_reader 4 10 [.require 8, .bump 5]).input.require
      text_reader 4 7).input.m_current = { data := 1005, byte := 5, line := 2, column := 2 } :=
  have h := require_pulls_once text_reader 4
    ((start sample_input).run text_reader 4 10 [.require 8, .bump 5]).input 7 3 4 4
    (by decide) rfl rfl (by decide) (by decide) rfl
  ⟨h.1, congrArg outcome.pulls h.2.2.2.2.1, h.2.2.2.2.2.1, h.2.2.2.2.2.2⟩

/-- C8.  `discard()` leaves the state as it was exactly when `m_current.data`
lies at most `Chunk` bytes past `m_buffer` (an offset of exactly `Chunk` does
not compact).  Otherwise, in a state where the capacity queries return
`occ`, `off` and `free`, afterwards `m_current.data == m_buffer`,
`m_end == m_buffer + occ`, `buffer_free_before_current()` is 0 and
`buffer_free_after_end()` is `free + off`. -/
theorem discard_effect (Chunk : Nat) (s : buffer_input ρ) :
    (s.discard Chunk = s ↔ s.m_current.data ≤ s.m_buffer + Chunk) ∧
    (s.m_current.data = s.m_buffer + Chunk → s.discard Chunk = s) ∧
    (∀ occ off free, s.buffer_occupied = .ok occ → s.buffer_free_before_current = .ok off →
      s.buffer_free_after_end = .ok free → ¬ s.m_current.data ≤ s.m_buffer + Chunk →
      (s.discard Chunk).m_current.data = s.m_buffer ∧
      (s.discard Chunk).m_end = s.m_buffer + occ ∧
      (s.discard Chunk).buffer_free_before_current = .ok 0 ∧
      (s.discard Chunk).buffer_free_after_end = .ok (free + off)) := by
  have hiff : s.discard Chunk = s ↔ s.m_current.data ≤ s.m_buffer + Chunk := by
    constructor
    · intro h
      by_contra hgt
      have hd : (s.discard Chunk).m_current.data = s.m_buffer := by
        simp only [buffer_input.discard]
        rw [if_pos (by omega)]
      rw [h] at hd
      omega
    · intro h
      simp only [buffer_input.discard]
      rw [if_neg (by omega)]
  refine ⟨hiff, fun h => hiff.mpr (by omega), ?_⟩
  intro occ off free hocc hoff hfree hgt
  simp only [buffer_occupied] at hocc
  split at hocc
  swap
  · cases hocc
  injection hocc with hocc
  simp only [buffer_free_before_current] at hoff
  split at hoff
  swap
  · cases hoff
  injection hoff with hoff
  simp only [buffer_free_after_end] at hfree
  split at hfree
  swap
  · cases hfree
  injection hfree with hfree
  have hd : s.discard Chunk =
      { s with memory := memmove s.memory s.m_buffer s.m_current.data (s.m_end - s.m_current.data)
               m_current := { s.m_current with data := s.m_buffer }
               m_end := s.m_buffer + (s.m_end - s.m_current.data) } := by
    simp only [buffer_input.discard]
    rw [if_pos (by omega)]
  rw [hd]
  refine ⟨rfl, by simp only; omega, by simp [buffer_free_before_current], ?_⟩
  simp only [buffer_free_after_end]
  rw [if_pos (show s.m_buffer + s.m_maximum ≥ s.m_buffer + (s.m_end - s.m_current.data) by omega)]
  congr 1
  omega

/-- C8, on the sample buffer: after `require( 8 ); bump( 4 )` the offset is
exactly the chunk size 4 and `discard()` changes nothing; after
`require( 8 ); bump( 5 )` (3 bytes occupied, offset 5, 4 bytes free)
`discard()` puts `m_current.data` at 1000, `m_end` at 1003, and 9 bytes are
free after it. -/
theorem discard_effect_witness :
    ((start sample_input).run text_reader 4 10 [.require 8, .bump 4]).input.discard 4 =
      ((start sample_input).run text_reader 4 10 [.require 8, .bump 4]).input ∧
    (((start sample_input).run text_reader 4 10 [.require 8, .bump 5]).input.discard
      4).m_current.data = 1000 ∧
    (((start sample_input).run text_reader 4 10 [.require 8, .bump 5]).input.discard
      4).m_end = 1000 + 3 ∧
    (((start sample_input).run text_reader 4 10 [.require 8, .bump 5]).input.discard
      4).buffer_free_before_current = .ok 0 ∧
    (((start sample_input).run text_reader 4 10 [.require 8, .bump 5]).input.discard
      4).buffer_free_after_end = .ok (4 + 5) :=
  ⟨(discard_effect 4 ((start sample_input).run text_reader 4 10 [.require 8, .bump 4]).input).2.1
      rfl,
   (discard_effect 4 ((start sample_input).run text_reader 4 10 [.require 8, .bump 5]).input).2.2
      3 5 4 rfl rfl rfl (by decide)⟩

/-- C9.  In a state satisfying the cursor invariant, `discard()` keeps
`buffer_occupied()`, keeps `peek_char( i )` for every `i` below it (the move
goes through `memmove`, so overlapping source and destination are fine), and
keeps the byte, line and column counters. -/
theorem discard_preserves_window (Chunk : Nat) (s : buffer_input ρ) (hinv : s.cursor_invariant) :
    (s.discard Chunk).buffer_occupied = s.buffer_occupied ∧
    s.buffer_occupied = .ok (s.m_end - s.m_current.data) ∧
    (∀ i, i < s.m_end - s.m_current.data → (s.discard Chunk).peek_char i = s.peek_char i) ∧
    (s.discard Chunk).byte = s.byte ∧ (s.discard Chunk).line = s.line ∧
    (s.discard Chunk).column = s.column := by
  obtain ⟨ha, hb, hc⟩ := hinv
  have hocc : s.buffer_occupied = .ok (s.m_end - s.m_current.data) := by
    simp [buffer_occupied, hb]
  by_cases hgt : s.m_current.data > s.m_buffer + Chunk
  · have hd : s.discard Chunk =
        { s with memory := memmove s.memory s.m_buffer s.m_current.data (s.m_end - s.m_current.data)
                 m_current := { s.m_current with data := s.m_buffer }
                 m_end := s.m_buffer + (s.m_end - s.m_current.data) } := by
      simp only [buffer_input.discard]
      rw [if_pos hgt]
    rw [hd]
    refine ⟨?_, hocc, ?_, rfl, rfl, rfl⟩
    · rw [hocc]
      simp [buffer_occupied]
    · intro i hi
      simp only [peek_char]
      exact memmove_at _ _ _ _ _ hi
  · have hd : s.discard Chunk = s := by
      simp only [buffer_input.discard]
      rw [if_neg hgt]
    rw [hd]
    exact ⟨rfl, hocc, fun _ _ => rfl, rfl, rfl, rfl⟩

/-- C9, on the sample buffer after `require( 8 ); bump( 5 ); require( 7 )`:
the window is the 7 bytes at 1005..1011, `discard()` moves it onto the
overlapping range 1000..1006, and `peek_char( 6 )` is the byte 108 before
and after. -/
theorem discard_preserves_window_witness :
    (((start sample_input).run text_reader 4 10
        [.require 8, .bump 5, .require 7]).input.discard 4).m_current.data = 1000 ∧
    ((start sample_input).run text_reader 4 10
        [.require 8, .bump 5, .require 7]).input.peek_char 6 = 108 ∧
    (((start sample_input).run text_reader 4 10
        [.require 8, .bump 5, .require 7]).input.discard 4).peek_char 6 =
      ((start sample_input).run text_reader 4 10
        [.require 8, .bump 5, .require 7]).input.peek_char 6 :=
  ⟨rfl, rfl,
   (discard_preserves_window 4
      ((start sample_input).run text_reader 4 10 [.require 8, .bump 5, .require 7]).input
      ⟨by decide, by decide, by decide⟩).2.2.1 6 (by decide)⟩

/-- C10.  Let a snapshot `g1 = rewind_save()` be taken in state `s0`, let
any operations lead to a state `s1` where `g2 = rewind_save()` is taken, and
let any operations lead on to a state `s2`.  Then `rewind_restore( g2 )`
followed by `rewind_restore( g1 )` leaves the Position Marker equal to `g1`
(pointer, byte, line and column as they were in `s0`); each of the two
restores changes nothing but the marker: `m_end`, the memory, the reader,
`m_buffer` and `m_maximum` stay as they are. -/
theorem nested_rewind_restore (s0 s1 s2 : buffer_input ρ) :
    ((s2.rewind_restore s1.rewind_save).rewind_restore s0.rewind_save).rewind_save =
      s0.rewind_save ∧
    ((s2.rewind_restore s1.rewind_save).rewind_restore s0.rewind_save).current = s0.current ∧
    ((s2.rewind_restore s1.rewind_save).rewind_restore s0.rewind_save).byte = s0.byte ∧
    ((s2.rewind_restore s1.rewind_save).rewind_restore s0.rewind_save).line = s0.line ∧
    ((s2.rewind_restore s1.rewind_save).rewind_restore s0.rewind_save).column = s0.column ∧
    (s2.rewind_restore s1.rewind_save).rewind_save = s1.rewind_save ∧
    (∀ (s : buffer_input ρ) (g : frobnicator),
      s.rewind_restore g = { s with m_current := g } ∧
      (s.rewind_restore g).m_end = s.m_end ∧ (s.rewind_restore g).memory = s.memory ∧
      (s.rewind_restore g).m_reader = s.m_reader ∧ (s.rewind_restore g).m_buffer = s.m_buffer ∧
      (s.rewind_restore g).m_maximum = s.m_maximum) :=
  ⟨rfl, rfl, rfl, rfl, rfl, rfl, fun _ _ => ⟨rfl, rfl, rfl, rfl, rfl, rfl⟩⟩

/-- C11.  In a state satisfying the cursor invariant, `empty()` makes one
`require( 1 )` and returns whether `m_current.data == m_end` afterwards.
If a byte is available it returns `false` with no pull and the state
untouched.  If none is available and the cursor is not at the very end of
the arena, it makes exactly one pull, of length
`min( free, max( 1, Chunk ) )` at `m_end`, and returns `true` exactly when
that pull wrote no byte.  It raises Overflow, returning nothing, exactly when
no byte is available and `m_current.data` is `m_maximum` bytes past
`m_buffer`; no other fault occurs. -/
theorem empty_spec (R : Reader ρ) (Chunk : Nat) (s : buffer_input ρ) (hinv : s.cursor_invariant) :
    (∀ b, (s.empty R Chunk).2 = some b →
      (b = true ↔ (s.require R Chunk 1).input.m_current.data =
        (s.require R Chunk 1).input.m_end)) ∧
    (s.m_current.data < s.m_end →
      s.empty R Chunk = ({ fault := none, input := s, pulls := [] }, some false)) ∧
    (s.m_current.data = s.m_end → s.m_current.data < s.m_buffer + s.m_maximum →
      (s.empty R Chunk).1.fault = none ∧
      (s.empty R Chunk).1.pulls =
        [{ dst := s.m_end
           len := min (s.m_buffer + s.m_maximum - s.m_end) (max 1 Chunk)
           written := (R s.m_reader s.m_end
             (min (s.m_buffer + s.m_maximum - s.m_end) (max 1 Chunk))).1 }] ∧
      (s.empty R Chunk).2 = some (decide ((R s.m_reader s.m_end
             (min (s.m_buffer + s.m_maximum - s.m_end) (max 1 Chunk))).1.length = 0))) ∧
    ((s.empty R Chunk).1.fault = some Fault.overflow_error ↔
      s.m_current.data = s.m_end ∧ s.m_current.data = s.m_buffer + s.m_maximum) ∧
    ((s.empty R Chunk).2 = none ↔ (s.empty R Chunk).1.fault = some Fault.overflow_error) := by
  obtain ⟨ha, hb, hc⟩ := hinv
  by_cases h1 : s.m_current.data + 1 ≤ s.m_end
  · have e : s.require R Chunk 1 = { fault := none, input := s, pulls := [] } := by
      simp [require, h1]
    have e2 : s.empty R Chunk = ({ fault := none, input := s, pulls := [] }, some false) := by
      simp only [empty, e]
      have : s.m_current.data ≠ s.m_end := by omega
      simp [this]
    refine ⟨?_, fun _ => e2, ?_, ?_, ?_⟩
    · intro b hbv
      rw [e2] at hbv
      simp only [Option.some.injEq] at hbv
      rw [e, ← hbv]
      simp
      omega
    · intro h; omega
    · rw [e2]; simp; omega
    · rw [e2]; simp
  · by_cases h2 : s.m_current.data + 1 > s.m_buffer + s.m_maximum
    · have e : s.require R Chunk 1 =
          { fault := some Fault.overflow_error, input := s, pulls := [] } := by
        simp [require, h1, h2]
      have e2 : s.empty R Chunk =
          ({ fault := some Fault.overflow_error, input := s, pulls := [] }, none) := by
        simp only [empty, e]
      refine ⟨?_, fun h => by omega, fun _ h => by omega, ?_, ?_⟩
      · intro b hbv
        rw [e2] at hbv
        cases hbv
      · rw [e2]; simp; omega
      · rw [e2]; simp
    · have hcur : s.m_current.data = s.m_end := by omega
      have e := require_pull R Chunk s 1 ⟨ha, hb, hc⟩ h1 h2
      have hsub : size_t_sub 1 (s.m_end - s.m_current.data) = 1 := by
        simp only [size_t_sub, SIZE_MAX]
        omega
      rw [hsub] at e
      generalize hL : min (s.m_buffer + s.m_maximum - s.m_end) (max 1 Chunk) = L at e ⊢
      have e2 : s.empty R Chunk = (s.require R Chunk 1,
          some (decide ((R s.m_reader s.m_end L).1.length = 0))) := by
        simp only [empty, e]
        congr 2
        simp only [decide_eq_decide]
        omega
      refine ⟨?_, fun h => by omega, ?_, ?_, ?_⟩
      · intro b hbv
        rw [e2] at hbv
        simp only [Option.some.injEq] at hbv
        rw [e, ← hbv]
        simp only [decide_eq_true_eq]
        omega
      · intro _ _
        rw [e2, e]
        exact ⟨rfl, rfl, rfl⟩
      · rw [e2, e]
        simp
        omega
      · rw [e2, e]
        simp

/-- C11, on the sample buffer (maximum 8, chunk 4).  Fresh, `empty()` pulls
once for `min( 12, max( 1, 4 ) ) = 4` bytes and returns `false`; with an
exhausted reader the pull writes nothing and `empty()` returns `true`; after
`require( 12 ); bump( 12 )` the cursor is at the end of the arena and
`empty()` raises Overflow. -/
theorem empty_spec_witness :
    (sample_input.empty text_reader 4).1.pulls =
      [{ dst := 1000, len := 4, written := [97, 98, 99, 10] }] ∧
    (sample_input.empty text_reader 4).2 = some false ∧
    ({ sample_input with m_reader := [] }.empty text_reader 4).2 = some true ∧
    (((start sample_input).run text_reader 4 10 [.require 12, .bump 12]).input.empty
      text_reader 4).1.fault = some Fault.overflow_error :=
  ⟨((empty_spec text_reader 4 sample_input ⟨by decide, by decide, by decide⟩).2.2.1
      rfl (by decide)).2.1,
   ((empty_spec text_reader 4 sample_input ⟨by decide, by decide, by decide⟩).2.2.1
      rfl (by decide)).2.2,
   ((empty_spec text_reader 4 { sample_input with m_reader := [] }
      ⟨by decide, by decide, by decide⟩).2.2.1 rfl (by decide)).2.2,
   (empty_spec text_reader 4
      ((start sample_input).run text_reader 4 10 [.require 12, .bump 12]).input
      ⟨by decide, by decide, by decide⟩).2.2.2.1.mpr ⟨rfl, rfl⟩⟩

/-- C12 as stated fails.  On the sample buffer, take a snapshot after
`require( 8 )`, consume five bytes with `bump( 5 )`, and restore the
snapshot: `byte()` goes from 5 back to 0. -/
theorem rewind_restore_lowers_byte :
    ((((start sample_input).run text_reader 4 10 [.require 8]).input.bump 10 5).rewind_restore
        ((start sample_input).run text_reader 4 10 [.require 8]).input.rewind_save).byte = 0 ∧
    (((start sample_input).run text_reader 4 10 [.require 8]).input.bump 10 5).byte = 5 ∧
    ¬ (((start sample_input).run text_reader 4 10 [.require 8]).input.bump 10 5).byte ≤
      ((((start sample_input).run text_reader 4 10 [.require 8]).input.bump 10 5).rewind_restore
        ((start sample_input).run text_reader 4 10 [.require 8]).input.rewind_save).byte :=
  ⟨rfl, rfl, by decide⟩

/-- C12, amended.  In every state, `require` and `discard` leave `byte()`
as it is and each bump variant raises it by exactly the count consumed, so
`byte()` does not decrease under these operations; `rewind_restore( g )`
sets `byte()` to the byte count of the snapshot `g`, whatever it was
before. -/
theorem byte_monotone_without_rewind (R : Reader ρ) (Chunk Eol_ch : Nat) (s : buffer_input ρ)
    (n : Nat) (g : frobnicator) :
    (s.require R Chunk n).input.byte = s.byte ∧
    (s.discard Chunk).byte = s.byte ∧
    (s.bump Eol_ch n).byte = s.byte + n ∧
    (s.bump_in_this_line n).byte = s.byte + n ∧
    (s.bump_to_next_line n).byte = s.byte + n ∧
    s.byte ≤ (s.require R Chunk n).input.byte ∧
    s.byte ≤ (s.discard Chunk).byte ∧
    s.byte ≤ (s.bump Eol_ch n).byte ∧
    s.byte ≤ (s.bump_in_this_line n).byte ∧
    s.byte ≤ (s.bump_to_next_line n).byte ∧
    (s.rewind_restore g).byte = g.byte := by
  have h1 : (s.require R Chunk n).input.byte = s.byte := by
    simp only [byte, require_m_current]
  have h2 : (s.discard Chunk).byte = s.byte := by
    simp only [byte, buffer_input.discard]
    split <;> rfl
  have h3 : (s.bump Eol_ch n).byte = s.byte + n := by
    simp only [byte, buffer_input.bump, internal.bump_byte]
  have h4 : (s.bump_in_this_line n).byte = s.byte + n := rfl
  have h5 : (s.bump_to_next_line n).byte = s.byte + n := rfl
  refine ⟨h1, h2, h3, h4, h5, ?_, ?_, ?_, ?_, ?_, rfl⟩ <;> omega

/-- C13.  For every value `u` (in particular every 32-bit one),
`utf8_append_utf32( s, u )` returns `false` if and only if
`0xD800 <= u <= 0xDFFF` or `u > 0x10FFFF`, and whenever it returns `false`
the string `s` is left as it was. -/
theorem utf8_append_utf32_false_iff (s : List Nat) (u : Nat) :
    ((utf8_append_utf32 s u).1 = false ↔ (0xD800 ≤ u ∧ u ≤ 0xDFFF) ∨ u > 0x10FFFF) ∧
    ((utf8_append_utf32 s u).1 = false → (utf8_append_utf32 s u).2 = s) := by
  by_cases hu : is_scalar u
  · rw [unescape.utf8_append_utf32_scalar s u hu]
    obtain ⟨h1, h2⟩ := hu
    refine ⟨?_, ?_⟩
    · simp only [Bool.true_eq_false, false_iff]
      omega
    · intro h
      cases h
  · rw [unescape.utf8_append_utf32_reject s u hu]
    unfold is_scalar at hu
    refine ⟨?_, fun _ => rfl⟩
    simp only [true_iff]
    omega

/-- C13, on the surrogate `0xD800` and on `0x110000`: both are refused and
the string `[1]` stays `[1]`. -/
theorem utf8_append_utf32_false_iff_witness :
    (utf8_append_utf32 [1] 0xD800).1 = false ∧ (utf8_append_utf32 [1] 0xD800).2 = [1] ∧
    (utf8_append_utf32 [1] 0x110000).2 = [1] :=
  ⟨(utf8_append_utf32_false_iff [1] 0xD800).1.mpr (Or.inl (by decide)),
   (utf8_append_utf32_false_iff [1] 0xD800).2 rfl,
   (utf8_append_utf32_false_iff [1] 0x110000).2 rfl⟩

/-- C14.  For every Unicode scalar value `u`, `utf8_append_utf32( s, u )`
returns `true` and the string afterwards is `s` followed by the standard
UTF-8 encoding of `u`: one byte `0xxxxxxx` if `u <= 0x7F`, two bytes
`110xxxxx 10xxxxxx` if `u <= 0x7FF`, three bytes `1110xxxx 10xxxxxx 10xxxxxx`
if `u <= 0xFFFF`, four bytes `11110xxx 10xxxxxx 10xxxxxx 10xxxxxx` otherwise,
the payload bits being those of `u`, most significant first. -/
theorem utf8_append_utf32_standard (s : List Nat) (u : Nat) (hu : is_scalar u) :
    utf8_append_utf32 s u = (true, s ++ utf8_encoding u) ∧
    (u ≤ 0x7F → utf8_encoding u = [u] ∧ u / 128 = 0) ∧
    (0x7F < u → u ≤ 0x7FF → ∃ b0 b1, utf8_encoding u = [b0, b1] ∧
      b0 / 32 = 6 ∧ b1 / 64 = 2 ∧ b0 % 32 * 64 + b1 % 64 = u) ∧
    (0x7FF < u → u ≤ 0xFFFF → ∃ b0 b1 b2, utf8_encoding u = [b0, b1, b2] ∧
      b0 / 16 = 14 ∧ b1 / 64 = 2 ∧ b2 / 64 = 2 ∧
      b0 % 16 * 4096 + b1 % 64 * 64 + b2 % 64 = u) ∧
    (0xFFFF < u → ∃ b0 b1 b2 b3, utf8_encoding u = [b0, b1, b2, b3] ∧
      b0 / 8 = 30 ∧ b1 / 64 = 2 ∧ b2 / 64 = 2 ∧ b3 / 64 = 2 ∧
      b0 % 8 * 262144 + b1 % 64 * 4096 + b2 % 64 * 64 + b3 % 64 = u) := by
  refine ⟨unescape.utf8_append_utf32_scalar s u hu, ?_, ?_, ?_, ?_⟩
  · intro h
    simp only [utf8_encoding]
    rw [if_pos h]
    exact ⟨rfl, by omega⟩
  · intro h1 h2
    refine ⟨0xC0 + u / 64, 0x80 + u % 64, ?_, by omega, by omega, by omega⟩
    simp only [utf8_encoding]
    rw [if_neg (by omega), if_pos h2]
  · intro h1 h2
    refine ⟨0xE0 + u / 4096, 0x80 + u / 64 % 64, 0x80 + u % 64, ?_, by omega, by omega,
      by omega, by omega⟩
    simp only [utf8_encoding]
    rw [if_neg (by omega), if_neg (by omega), if_pos h2]
  · intro h1
    have hmax := hu.1
    refine ⟨0xF0 + u / 262144, 0x80 + u / 4096 % 64, 0x80 + u / 64 % 64, 0x80 + u % 64, ?_,
      by omega, by omega, by omega, by omega, by omega⟩
    simp only [utf8_encoding]
    rw [if_neg (by omega), if_neg (by omega), if_neg (by omega)]

/-- C14, on the code points `0x41`, `0xE9`, `0x20AC` and `0x1F600`: the
encodings are `41`, `C3 A9`, `E2 82 AC` and `F0 9F 98 80`, appended to the
string `[1]`. -/
theorem utf8_append_utf32_standard_witness :
    utf8_append_utf32 [1] 0x41 = (true, [1, 0x41]) ∧
    utf8_append_utf32 [1] 0xE9 = (true, [1, 0xC3, 0xA9]) ∧
    utf8_append_utf32 [1] 0x20AC = (true, [1, 0xE2, 0x82, 0xAC]) ∧
    utf8_append_utf32 [1] 0x1F600 = (true, [1, 0xF0, 0x9F, 0x98, 0x80]) :=
  ⟨(utf8_append_utf32_standard [1] 0x41 (by decide)).1,
   (utf8_append_utf32_standard [1] 0xE9 (by decide)).1,
   (utf8_append_utf32_standard [1] 0x20AC (by decide)).1,
   (utf8_append_utf32_standard [1] 0x1F600 (by decide)).1⟩

/-- C15 (UTF-8 round trip).  For Unicode scalar values `u` and `v`, the
standard UTF-8 decoder applied to the bytes that `utf8_append_utf32` appends
to the empty string for `u` yields `u`; hence if `u` and `v` give the same
bytes, then `u = v`. -/
theorem utf8_round_trip (u v : Nat) (hu : is_scalar u) (hv : is_scalar v) :
    utf8_decode (utf8_append_utf32 [] u).2 = some u ∧
    ((utf8_append_utf32 [] u).2 = (utf8_append_utf32 [] v).2 → u = v) := by
  have key : ∀ w, is_scalar w → utf8_decode (utf8_append_utf32 [] w).2 = some w := by
    intro w hw
    rw [unescape.utf8_append_utf32_scalar [] w hw]
    simpa using reference.utf8_decode_encoding w hw.1
  refine ⟨key u hu, ?_⟩
  intro h
  have h1 := key u hu
  have h2 := key v hv
  rw [h, h2] at h1
  exact (Option.some.inj h1).symm

/-- C15, on `0x1F600`: it encodes to `F0 9F 98 80` and decodes back to
`0x1F600`. -/
theorem utf8_round_trip_witness :
    (utf8_append_utf32 [] 0x1F600).2 = [0xF0, 0x9F, 0x98, 0x80] ∧
    utf8_decode [0xF0, 0x9F, 0x98, 0x80] = some 0x1F600 :=
  ⟨rfl, (utf8_round_trip 0x1F600 0x1F600 (by decide) (by decide)).1⟩

/-- C18.  For a span made of a marker byte `m` and hexadecimal digits,
`unescape_x` appends exactly one byte to `s`: for two digits `d1 d2` with
values `v1`, `v2` it is `16 * v1 + v2`; for any number of digits it is the
positional value of the digits modulo 256.  Upper- and lower-case digits have
the same value. -/
theorem unescape_x_byte (m d1 d2 v1 v2 : Nat) (ds s : List Nat)
    (h1 : xdigit_value d1 = some v1) (h2 : xdigit_value d2 = some v2)
    (hds : ∀ c ∈ ds, is_xdigit c) :
    unescape_x.apply [m, d1, d2] s = { status := .done, s := s ++ [16 * v1 + v2] } ∧
    unescape_x.apply (m :: ds) s = { status := .done, s := s ++ [hex_value ds % 256] } ∧
    (∀ c, 97 ≤ c → c ≤ 102 → xdigit_value (c - 32) = xdigit_value c) := by
  have key : ∀ l : List Nat, (∀ c ∈ l, is_xdigit c) →
      unescape_x.apply (m :: l) s = { status := .done, s := s ++ [hex_value l % 256] } := by
    intro l hl
    have h := unescape.unhex_string_value 8 l hl
    simp only [unescape_x.apply, List.length_cons, List.drop_succ_cons, List.drop_zero, h]
    rw [if_neg (by omega)]
    rfl
  refine ⟨?_, key ds hds, ?_⟩
  · have hl : ∀ c ∈ [d1, d2], is_xdigit c := by
      intro c hc
      simp only [List.mem_cons, List.mem_singleton, List.not_mem_nil, or_false] at hc
      rcases hc with hc | hc <;> subst hc <;> simp [is_xdigit, h1, h2]
    rw [key [d1, d2] hl]
    have hv1 := reference.xdigit_value_le d1
    have hv2 := reference.xdigit_value_le d2
    rw [h1] at hv1
    rw [h2] at hv2
    simp only [Option.getD_some] at hv1 hv2
    have : hex_value [d1, d2] = 16 * v1 + v2 := by
      simp [hex_value, h1, h2]
    rw [this, Nat.mod_eq_of_lt (by omega)]
  · intro c hc1 hc2
    interval_cases c <;> rfl

/-- C18, on the span `x41`: the byte `0x41` (`A`) is appended; and on the
span `x1234`, the byte `0x34`. -/
theorem unescape_x_byte_witness :
    unescape_x.apply [120, 52, 49] [1] = { status := .done, s := [1, 0x41] } ∧
    unescape_x.apply [120, 49, 50, 51, 52] [1] = { status := .done, s := [1, 0x34] } :=
  ⟨(unescape_x_byte 120 52 49 4 1 [49, 50, 51, 52] [1] rfl rfl (by decide)).1,
   (unescape_x_byte 120 52 49 4 1 [49, 50, 51, 52] [1] rfl rfl (by decide)).2.1⟩

/-- C19.  For a span made of a marker byte `m` and at most eight hexadecimal
digits with positional value `v`: if `v` is a Unicode scalar value,
`unescape_u` succeeds and appends the UTF-8 encoding of `v`; otherwise it
fails with invalid code point (a `parse_error`, or `false` in the build
without exceptions) and leaves `s` alone.  So it fails exactly when `v` is in
`0xD800..0xDFFF` or above `0x10FFFF`. -/
theorem unescape_u_code_point (cpp_exceptions : Bool) (m : Nat) (ds s : List Nat)
    (hds : ∀ c ∈ ds, is_xdigit c) (hlen : ds.length ≤ 8) :
    (is_scalar (hex_value ds) →
      unescape_u.apply cpp_exceptions (m :: ds) s =
        { status := if cpp_exceptions then .done else .returned true
          s := s ++ utf8_encoding (hex_value ds) }) ∧
    (¬ is_scalar (hex_value ds) →
      unescape_u.apply cpp_exceptions (m :: ds) s =
        { status := if cpp_exceptions then .parse_error else .returned false, s := s }) ∧
    ((unescape_u.apply cpp_exceptions (m :: ds) s).status.invalid_code_point cpp_exceptions = true ↔
      (0xD800 ≤ hex_value ds ∧ hex_value ds ≤ 0xDFFF) ∨ hex_value ds > 0x10FFFF) ∧
    ((unescape_u.apply cpp_exceptions (m :: ds) s).status.succeeded = true ↔
      is_scalar (hex_value ds)) := by
  have hlt := reference.hex_value_lt ds
  have hpow : (16 : Nat) ^ ds.length ≤ 16 ^ 8 := Nat.pow_le_pow_right (by decide) hlen
  have hv : unhex_string 32 ds = some (hex_value ds) := by
    rw [unescape.unhex_string_value 32 ds hds, Nat.mod_eq_of_lt]
    norm_num at hpow ⊢
    omega
  have hok : is_scalar (hex_value ds) →
      unescape_u.apply cpp_exceptions (m :: ds) s =
        { status := if cpp_exceptions then .done else .returned true
          s := s ++ utf8_encoding (hex_value ds) } := by
    intro hsc
    simp only [unescape_u.apply, List.length_cons, List.drop_succ_cons, List.drop_zero, hv,
      unescape.utf8_append_utf32_scalar s _ hsc]
    rw [if_neg (by omega)]
    cases cpp_exceptions <;> rfl
  have hbad : ¬ is_scalar (hex_value ds) →
      unescape_u.apply cpp_exceptions (m :: ds) s =
        { status := if cpp_exceptions then .parse_error else .returned false, s := s } := by
    intro hsc
    simp only [unescape_u.apply, List.length_cons, List.drop_succ_cons, List.drop_zero, hv,
      unescape.utf8_append_utf32_reject s _ hsc]
    rw [if_neg (by omega)]
    cases cpp_exceptions <;> rfl
  refine ⟨hok, hbad, ?_, ?_⟩
  · by_cases hsc : is_scalar (hex_value ds)
    · rw [hok hsc]
      have : ¬ ((0xD800 ≤ hex_value ds ∧ hex_value ds ≤ 0xDFFF) ∨ hex_value ds > 0x10FFFF) := by
        unfold is_scalar at hsc
        omega
      simp only [this, iff_false]
      cases cpp_exceptions <;> decide
    · rw [hbad hsc]
      have : (0xD800 ≤ hex_value ds ∧ hex_value ds ≤ 0xDFFF) ∨ hex_value ds > 0x10FFFF := by
        unfold is_scalar at hsc
        omega
      simp only [this, iff_true]
      cases cpp_exceptions <;> decide
  · by_cases hsc : is_scalar (hex_value ds)
    · rw [hok hsc]
      simp only [hsc, iff_true]
      cases cpp_exceptions <;> rfl
    · rw [hbad hsc]
      simp only [hsc, iff_false]
      cases cpp_exceptions <;> decide

/-- C19, on the spans `u20AC` (appends `E2 82 AC`), `uD800` (refused, a
surrogate) and `U0001F600` (eight digits, appends `F0 9F 98 80`). -/
theorem unescape_u_code_point_witness :
    unescape_u.apply true [117, 50, 48, 65, 67] [1] =
      { status := .done, s := [1, 0xE2, 0x82, 0xAC] } ∧
    unescape_u.apply true [117, 68, 56, 48, 48] [1] = { status := .parse_error, s := [1] } ∧
    unescape_u.apply false [85, 48, 48, 48, 49, 70, 54, 48, 48] [1] =
      { status := .returned true, s := [1, 0xF0, 0x9F, 0x98, 0x80] } :=
  ⟨(unescape_u_code_point true 117 [50, 48, 65, 67] [1] (by decide) (by decide)).1 (by decide),
   (unescape_u_code_point true 117 [68, 56, 48, 48] [1] (by decide) (by decide)).2.1 (by decide),
   (unescape_u_code_point false 85 [48, 48, 48, 49, 70, 54, 48, 48] [1] (by decide)
      (by decide)).1 (by decide)⟩

/-- C20.  For lists `q` (recognised characters) and `r` (replacements) of
equal length and a one-byte span holding `c`: if `c` occurs in `q`,
`unescape_c` appends exactly the byte `r[i]` for the smallest index `i` with
`q[i] == c` and leaves the earlier output alone; if `c` does not occur in
`q`, it appends nothing and ends in `std::terminate()`. -/
theorem unescape_c_maps (q r : List Nat) (c : Nat) (s : List Nat) (hlen : q.length = r.length) :
    (c ∈ q → ∃ i ch : Nat, q[i]? = some c ∧ (∀ j : Nat, j < i → q[j]? ≠ some c) ∧
      r[i]? = some ch ∧
      unescape_c.apply q r [c] s = { status := .done, s := s ++ [ch] }) ∧
    (c ∉ q → unescape_c.apply q r [c] s = { status := .terminate, s := s }) := by
  have hget : ∀ (l : List Nat) (j : Nat), j < l.length → l[j]? = some (l.getD j 0) := by
    intro l j hj
    rw [List.getD_eq_getElem?_getD, List.getElem?_eq_getElem hj]
    rfl
  constructor
  · intro hc
    have hex : ∃ k, k < q.length ∧ q.getD k 0 = c := by
      obtain ⟨k, hk, hkc⟩ := List.getElem_of_mem hc
      exact ⟨k, hk, by rw [List.getD_eq_getElem?_getD, List.getElem?_eq_getElem hk]; simpa using hkc⟩
    classical
    have hfind := Nat.find_spec hex
    have hmin := fun j (hj : j < Nat.find hex) => Nat.find_min hex hj
    generalize Nat.find hex = i at hfind hmin
    obtain ⟨hi, hqi⟩ := hfind
    have hloop := unescape.apply_two_loop_found c q r i hi hqi q.length 0 (by omega) (by omega)
      (fun j _ hj hq => hmin j hj ⟨by omega, hq⟩)
    refine ⟨i, r.getD i 0, ?_, ?_, hget r i (by omega), ?_⟩
    · rw [hget q i hi, hqi]
    · intro j hj hq
      have hjl : j < q.length := by omega
      rw [hget q j hjl] at hq
      exact hmin j hj ⟨hjl, Option.some.inj hq⟩
    · simp only [unescape_c.apply, unescape_c.apply_one, unescape_c.apply_two, List.length_cons,
        List.length_nil, List.headD_cons, hloop]
      rfl
  · intro hc
    have hloop := unescape.apply_two_loop_none c q r q.length 0 (by omega) (by
      intro j _ hj hq
      apply hc
      have := hget q j hj
      rw [hq] at this
      exact List.getElem?_mem this)
    simp only [unescape_c.apply, unescape_c.apply_one, unescape_c.apply_two, List.length_cons,
      List.length_nil, List.headD_cons, hloop]
    rfl

/-- C20, for `q = "nrtn"` and `r = "\n\r\tX"`: the span `r` appends byte 13,
the span `n` appends byte 10 (the first match, not `X`), and the span `x`
ends in `std::terminate()`. -/
theorem unescape_c_maps_witness :
    unescape_c.apply [110, 114, 116, 110] [10, 13, 9, 88] [114] [1] =
      { status := .done, s := [1, 13] } ∧
    unescape_c.apply [110, 114, 116, 110] [10, 13, 9, 88] [110] [1] =
      { status := .done, s := [1, 10] } ∧
    unescape_c.apply [110, 114, 116, 110] [10, 13, 9, 88] [120] [1] =
      { status := .terminate, s := [1] } :=
  ⟨rfl, rfl, (unescape_c_maps [110, 114, 116, 110] [10, 13, 9, 88] 120 [1] rfl).2 (by decide)⟩

/-- C16 (surrogate-pair merge).  Let `hs` and `ls` be groups of four
hexadecimal digits (either case) whose values `h` and `l` are a high
surrogate (`0xD800..0xDBFF`) and a low surrogate (`0xDC00..0xDFFF`).  Applied
to the 11-byte span `u hs \ u ls`, `unescape_j` returns `true` and appends
exactly the UTF-8 encoding, four bytes long, of the single code point
`((h & 0x3FF) << 10 | (l & 0x3FF)) + 0x10000`; that value equals
`0x10000 + (h - 0xD800) * 1024 + (l - 0xDC00)`, lies in
`0x10000..0x10FFFF`, and `utf8_append_utf32` returns `true` on it. -/
theorem unescape_j_surrogate_pair (cpp_exceptions : Bool) (hs ls s : List Nat)
    (hh4 : hs.length = 4) (hhx : ∀ c ∈ hs, is_xdigit c)
    (hl4 : ls.length = 4) (hlx : ∀ c ∈ ls, is_xdigit c)
    (hhigh : is_high_surrogate (hex_value hs)) (hlow : is_low_surrogate (hex_value ls)) :
    (117 :: (hs ++ [92, 117] ++ ls)).length = 11 ∧
    unescape_j.apply cpp_exceptions (117 :: (hs ++ [92, 117] ++ ls)) s =
      { status := .returned true
        s := s ++ utf8_encoding (surrogate_pair_value (hex_value hs) (hex_value ls)) } ∧
    (utf8_encoding (surrogate_pair_value (hex_value hs) (hex_value ls))).length = 4 ∧
    surrogate_pair_value (hex_value hs) (hex_value ls) =
      0x10000 + (hex_value hs - 0xD800) * 1024 + (hex_value ls - 0xDC00) ∧
    0x10000 ≤ surrogate_pair_value (hex_value hs) (hex_value ls) ∧
    surrogate_pair_value (hex_value hs) (hex_value ls) ≤ 0x10FFFF ∧
    (utf8_append_utf32 s (surrogate_pair_value (hex_value hs) (hex_value ls))).1 = true := by
  have hv : four_digit_groups [hs, ls] := by
    intro g hg
    simp only [List.mem_cons, List.mem_singleton, List.not_mem_nil, or_false] at hg
    rcases hg with hg | hg <;> subst hg
    · exact ⟨hh4, hhx⟩
    · exact ⟨hl4, hlx⟩
  have hval := (reference.surrogate_pair_value_eq _ _ hhigh hlow).1
  have hrange : 0x10000 ≤ surrogate_pair_value (hex_value hs) (hex_value ls) ∧
      surrogate_pair_value (hex_value hs) (hex_value ls) ≤ 0x10FFFF := by
    unfold is_high_surrogate at hhigh
    unfold is_low_surrogate at hlow
    omega
  have hsc : is_scalar (surrogate_pair_value (hex_value hs) (hex_value ls)) := by
    unfold is_scalar
    omega
  have hdec : utf16_decode ([hs, ls].map hex_value) =
      some [surrogate_pair_value (hex_value hs) (hex_value ls)] := by
    simp [utf16_decode, hhigh, hlow]
  have happ := (unescape.apply_j_decode cpp_exceptions [hs, ls] s (by simp) hv).2.1 _ hdec
  have hspan : escapes_span [hs, ls] = 117 :: (hs ++ [92, 117] ++ ls) := rfl
  rw [hspan] at happ
  refine ⟨by simp [hh4, hl4], ?_, ?_, hval, hrange.1, hrange.2, ?_⟩
  · rw [happ]
    simp
  · simp only [utf8_encoding]
    rw [if_neg (by omega), if_neg (by omega), if_neg (by omega)]
    rfl
  · rw [unescape.utf8_append_utf32_scalar s _ hsc]

/-- C16, on the span `uD83D\uDE00` (and on `ud83d\ude00` in lower case): the
pair gives the code point `0x1F600`, appended as `F0 9F 98 80`. -/
theorem unescape_j_surrogate_pair_witness :
    surrogate_pair_value 0xD83D 0xDE00 = 0x1F600 ∧
    unescape_j.apply true [117, 68, 56, 51, 68, 92, 117, 68, 69, 48, 48] [1] =
      { status := .returned true, s := [1, 0xF0, 0x9F, 0x98, 0x80] } ∧
    unescape_j.apply false [117, 100, 56, 51, 100, 92, 117, 100, 101, 48, 48] [1] =
      { status := .returned true, s := [1, 0xF0, 0x9F, 0x98, 0x80] } :=
  ⟨rfl,
   (unescape_j_surrogate_pair true [68, 56, 51, 68] [68, 69, 48, 48] [1] rfl (by decide) rfl
     (by decide) (by decide) (by decide)).2.1,
   (unescape_j_surrogate_pair false [100, 56, 51, 100] [100, 101, 48, 48] [1] rfl (by decide) rfl
     (by decide) (by decide) (by decide)).2.1⟩

/-- C17.  For a span of `k >= 1` four-hex-digit escapes (`6k - 1` bytes, the
first marker byte included) with 16-bit units `units`: `unescape_j` succeeds
if and only if `units` is well-formed UTF-16; on success it returns `true`
and has appended the UTF-8 transcoding of `units`; otherwise it fails with
invalid code point (a `parse_error`, or `false` in the build without
exceptions). -/
theorem unescape_j_well_formed (cpp_exceptions : Bool) (groups : List (List Nat)) (s : List Nat)
    (hne : groups ≠ []) (hv : four_digit_groups groups) :
    (escapes_span groups).length + 1 = 6 * groups.length ∧
    ((unescape_j.apply cpp_exceptions (escapes_span groups) s).status.succeeded = true ↔
      utf16_well_formed (groups.map hex_value)) ∧
    (utf16_well_formed (groups.map hex_value) →
      ∃ bytes, utf16_to_utf8 (groups.map hex_value) = some bytes ∧
        unescape_j.apply cpp_exceptions (escapes_span groups) s =
          { status := .returned true, s := s ++ bytes }) ∧
    (¬ utf16_well_formed (groups.map hex_value) →
      (unescape_j.apply cpp_exceptions (escapes_span groups) s).status =
        (if cpp_exceptions then .parse_error else .returned false) ∧
      (unescape_j.apply cpp_exceptions (escapes_span groups) s).status.invalid_code_point
        cpp_exceptions = true) := by
  obtain ⟨hlen, hsome, hnone⟩ := unescape.apply_j_decode cpp_exceptions groups s hne hv
  have hiff := reference.utf16_decode_isSome (groups.map hex_value)
  have hgood : utf16_well_formed (groups.map hex_value) →
      ∃ bytes, utf16_to_utf8 (groups.map hex_value) = some bytes ∧
        unescape_j.apply cpp_exceptions (escapes_span groups) s =
          { status := .returned true, s := s ++ bytes } := by
    intro hwf
    obtain ⟨cps, hcps⟩ := Option.isSome_iff_exists.mp (hiff.mpr hwf)
    exact ⟨(cps.map utf8_encoding).flatten, by simp [utf16_to_utf8, hcps], hsome cps hcps⟩
  have hbad : ¬ utf16_well_formed (groups.map hex_value) →
      (unescape_j.apply cpp_exceptions (escapes_span groups) s).status =
        (if cpp_exceptions then .parse_error else .returned false) := by
    intro hwf
    apply hnone
    cases hdec : utf16_decode (groups.map hex_value) with
    | none => rfl
    | some cps => exact absurd (hiff.mp (by simp [hdec])) hwf
  refine ⟨hlen, ?_, hgood, ?_⟩
  · constructor
    · intro hs
      by_contra hwf
      rw [hbad hwf] at hs
      cases cpp_exceptions <;> simp [status.succeeded] at hs
    · intro hwf
      obtain ⟨bytes, _, happ⟩ := hgood hwf
      rw [happ]
      rfl
  · intro hwf
    refine ⟨hbad hwf, ?_⟩
    rw [hbad hwf]
    cases cpp_exceptions <;> decide

/-- C17, on three spans: `u0041\uD83D\uDE00` is well-formed and appends
`41 F0 9F 98 80`; a lone `uD800` fails with a `parse_error`; and
`uD800\u0041` (a high surrogate followed by a non-surrogate) fails with
`false` in the build without exceptions. -/
theorem unescape_j_well_formed_witness :
    (unescape_j.apply true (escapes_span [[48, 48, 52, 49], [68, 56, 51, 68], [68, 69, 48, 48]])
      [1]).status.succeeded = true ∧
    (unescape_j.apply true (escapes_span [[48, 48, 52, 49], [68, 56, 51, 68], [68, 69, 48, 48]])
      [1]).s = [1, 0x41, 0xF0, 0x9F, 0x98, 0x80] ∧
    (unescape_j.apply true (escapes_span [[68, 56, 48, 48]]) [1]).status = .parse_error ∧
    (unescape_j.apply false (escapes_span [[68, 56, 48, 48], [48, 48, 52, 49]]) [1]).status =
      .returned false :=
  ⟨(unescape_j_well_formed true [[48, 48, 52, 49], [68, 56, 51, 68], [68, 69, 48, 48]] [1]
      (by decide) (by decide)).2.1.mpr (by decide),
   rfl,
   ((unescape_j_well_formed true [[68, 56, 48, 48]] [1] (by decide) (by decide)).2.2.2
      (by decide)).1,
   ((unescape_j_well_formed false [[68, 56, 48, 48], [48, 48, 52, 49]] [1] (by decide)
      (by decide)).2.2.2 (by decide)).1⟩

/-- C21.  Violating the precondition of `discard()` corrupts backtracking
silently.  Take the buffer with maximum 4 and chunk 4 over the source bytes
`abcdefgh`, load it with `require( 8 )`, and run
`s = rewind_save(); bump( 5 ); discard(); rewind_restore( s )`.  No fault is
raised; the restored position reports the byte count 0 of the snapshot; but
`peek_char( 0 )` is now `f` (102) where it was `a` (97) when the snapshot was
taken, and `buffer_occupied()` is 3 where it was 8. -/
theorem discard_under_snapshot_corrupts :
    construct 4 [97, 98, 99, 100, 101, 102, 103, 104] 4 1000 zero_memory = .ok abc_input ∧
    allowed text_reader 4 10 (start abc_input) [.require 8, .bump 5, .discard] = true ∧
    ((start abc_input).run text_reader 4 10 [.require 8, .bump 5, .discard]).raised = [] ∧
    ((start abc_input).run text_reader 4 10 [.require 8]).input.rewind_save.byte = 0 ∧
    ((start abc_input).run text_reader 4 10 [.require 8]).input.peek_char 0 = 97 ∧
    ((start abc_input).run text_reader 4 10 [.require 8]).input.buffer_occupied = .ok 8 ∧
    (((start abc_input).run text_reader 4 10 [.require 8, .bump 5, .discard]).input.rewind_restore
      ((start abc_input).run text_reader 4 10 [.require 8]).input.rewind_save).byte = 0 ∧
    (((start abc_input).run text_reader 4 10 [.require 8, .bump 5, .discard]).input.rewind_restore
      ((start abc_input).run text_reader 4 10 [.require 8]).input.rewind_save).peek_char 0 = 102 ∧
    (((start abc_input).run text_reader 4 10 [.require 8, .bump 5, .discard]).input.rewind_restore
      ((start abc_input).run text_reader 4 10 [.require 8]).input.rewind_save).buffer_occupied =
        .ok 3 :=
  ⟨rfl, rfl, rfl, rfl, rfl, rfl, rfl, rfl, rfl⟩

/-- C22 (backtracking without re-reading).  Let `s` satisfy the cursor
invariant and let the snapshot `rewind_save()` be taken in `s`.  After any
sequence of `require`, `bump` and `discard` calls in which no `discard()` is
effective, `rewind_restore` of the snapshot yields a state in which
`buffer_occupied()` is at least what it was in `s` and `peek_char( i )`
returns, for every `i` below the `buffer_occupied()` of `s`, the same byte
as in `s`.  The restore itself touches neither the reader nor `m_end` nor
the memory. -/
theorem rewind_restore_keeps_window (R : Reader ρ) (Chunk Eol_ch : Nat) (s : buffer_input ρ)
    (calls : List Call) (hinv : s.cursor_invariant)
    (hnd : Session.no_effective_discard R Chunk Eol_ch (start s) calls = true) :
    s.buffer_occupied = .ok (s.m_end - s.m_current.data) ∧
    (((start s).run R Chunk Eol_ch calls).input.rewind_restore s.rewind_save).buffer_occupied =
      .ok (((start s).run R Chunk Eol_ch calls).input.m_end - s.m_current.data) ∧
    s.m_end - s.m_current.data ≤
      ((start s).run R Chunk Eol_ch calls).input.m_end - s.m_current.data ∧
    (∀ i, i < s.m_end - s.m_current.data →
      (((start s).run R Chunk Eol_ch calls).input.rewind_restore s.rewind_save).peek_char i =
        s.peek_char i) ∧
    (((start s).run R Chunk Eol_ch calls).input.rewind_restore s.rewind_save).m_reader =
      ((start s).run R Chunk Eol_ch calls).input.m_reader ∧
    (((start s).run R Chunk Eol_ch calls).input.rewind_restore s.rewind_save).m_end =
      ((start s).run R Chunk Eol_ch calls).input.m_end ∧
    (((start s).run R Chunk Eol_ch calls).input.rewind_restore s.rewind_save).memory =
      ((start s).run R Chunk Eol_ch calls).input.memory := by
  obtain ⟨ha, hb, hc⟩ := hinv
  obtain ⟨he, hm⟩ := Session.run_keeps_window R Chunk Eol_ch s.m_end s.memory calls (start s) hnd
    (le_refl _) (fun _ _ => rfl)
  refine ⟨by simp [buffer_occupied, hb], ?_, by omega, ?_, rfl, rfl, rfl⟩
  · simp only [buffer_occupied, rewind_restore, rewind_save]
    rw [if_pos (by omega)]
  · intro i hi
    simp only [peek_char, rewind_restore, rewind_save]
    exact hm _ (by omega)

/-- C22, on the sample buffer (maximum 8, chunk 4) loaded by `require( 8 )`:
after `bump( 3 ); require( 7 ); discard(); bump( 2 )` (the `discard()` finds
the cursor 3 bytes into the arena and moves nothing) the restored state has
12 bytes available, at least the 8 of the snapshot, and `peek_char( 7 )` is
the byte 104 as it was. -/
theorem rewind_restore_keeps_window_witness :
    ((start sample_input).run text_reader 4 10 [.require 8]).input.peek_char 7 = 104 ∧
    (((start ((start sample_input).run text_reader 4 10 [.require 8]).input).run text_reader 4 10
        [.bump 3, .require 7, .discard, .bump 2]).input.rewind_restore
      ((start sample_input).run text_reader 4 10 [.require 8]).input.rewind_save).buffer_occupied =
        .ok 12 ∧
    (((start ((start sample_input).run text_reader 4 10 [.require 8]).input).run text_reader 4 10
        [.bump 3, .require 7, .discard, .bump 2]).input.rewind_restore
      ((start sample_input).run text_reader 4 10 [.require 8]).input.rewind_save).peek_char 7 =
      ((start sample_input).run text_reader 4 10 [.require 8]).input.peek_char 7 :=
  ⟨rfl, rfl,
   (rewind_restore_keeps_window text_reader 4 10
      ((start sample_input).run text_reader 4 10 [.require 8]).input
      [.bump 3, .require 7, .discard, .bump 2] ⟨by decide, by decide, by decide⟩ rfl).2.2.2.1 7
      (by decide)⟩

end claims

end PEGTL
